import Mathlib

/-!
Verification of the MetroPet routing/station-directory core.

The definitions below are a shallow embedding of the Python sources:
  - `services/station_service.py`   (StationManager)
  - `services/routing_service.py`   (RoutingManager)
Machine strings are Lean `String`s, Python dicts are association lists with
last-write-wins update semantics, and the `networkx.Graph` used by the
routing manager is an undirected simple graph represented by a node list
plus an edge list keyed by unordered pairs of station IDs.
-/

namespace MetroPet

set_option maxRecDepth 10000

/-! ## Station-name normalization
`StationManager._normalize_name_for_map` (services/station_service.py):
```
if not name: return ""
name = re.sub(r'[（\(][^）\)]*[）\)]', '', name)
return re.sub(r'站$', '', name).lower()
```
-/

/-- Opening-bracket character class `[（\(]` of the bracket regex. -/
def isOpenParen (c : Char) : Bool := c = '（' || c = '('

/-- Closing-bracket character class `[）\)]` of the bracket regex. -/
def isCloseParen (c : Char) : Bool := c = '）' || c = ')'

/-- Drop characters up to and including the first closing bracket;
`none` when no closing bracket occurs.  This is how far one match of
`[（\(][^）\)]*[）\)]` reaches after its opening bracket. -/
def afterClose : List Char → Option (List Char)
  | [] => none
  | c :: cs => if isCloseParen c then some cs else afterClose cs

/-- `re.sub(r'[（\(][^）\)]*[）\)]', '', name)`, written with explicit fuel so
that it is structurally recursive: scan left to right, deleting each
leftmost match (an opening bracket, the run of non-closing characters after
it, and the first closing bracket).  One fuel unit is spent per character
position, so `fuel = l.length` always suffices. -/
def stripParensF : Nat → List Char → List Char
  | 0, l => l
  | _ + 1, [] => []
  | fuel + 1, c :: cs =>
    if isOpenParen c then
      match afterClose cs with
      | some rest => stripParensF fuel rest
      | none => c :: stripParensF fuel cs
    else c :: stripParensF fuel cs

def stripParens (l : List Char) : List Char := stripParensF l.length l

/-- One match of `站$`: in Python, `$` matches at the end of the string and
also just before one final newline, so a trailing `站` (possibly followed by
a single final `'\n'`) is removed.  `none` when the pattern does not match. -/
def zhanSplit (l : List Char) : Option (List Char) :=
  match l.reverse with
  | c :: r =>
    if c = '站' then some r.reverse
    else
      match r with
      | c2 :: r2 => if c = '\n' && c2 = '站' then some (('\n' :: r2).reverse) else none
      | [] => none
  | [] => none

/-- `re.sub(r'站$', '', name)`. -/
def stripZhan (l : List Char) : List Char := (zhanSplit l).getD l

/-- Character pipeline of `_normalize_name_for_map` on a non-empty name:
bracket removal, then `站`-suffix removal, then `.lower()`. -/
def normalizeChars (l : List Char) : List Char :=
  ((stripZhan (stripParens l)).map Char.toLower)

/-- `StationManager._normalize_name_for_map`. -/
def normalizeNameForMap (s : String) : String :=
  if s = "" then "" else ⟨normalizeChars s.data⟩

/-- Decides whether the `站$` pattern still matches a (normalized) name,
i.e. whether a second normalization pass would strip a further `站`. -/
def endsInZhan (s : String) : Bool := (zhanSplit s.data).isSome

/-! ### Idempotence analysis for the normalizer -/

/-- A position where the bracket regex would match: an opening bracket with
some closing bracket somewhere to its right. -/
def hasParenMatch : List Char → Bool
  | [] => false
  | c :: cs => (isOpenParen c && (afterClose cs).isSome) || hasParenMatch cs

/-! ## Python dict as association list
`StationManager` state (services/station_service.py). -/

/-- Python `dict` lookup over the list of key/value assignments in program
order: a later assignment to the same key overwrites an earlier one. -/
def dictLookup {β : Type} (ps : List (String × β)) (k : String) : Option β :=
  ps.foldl (fun acc p => if p.1 = k then some p.2 else acc) none

/-- `StationManager.station_aliases`: the raw literal pairs of the seed
table, in source order, keys not yet normalized (the source passes each key
through `_normalize_name_for_map` when building the dict). -/
def rawStationAliases : List (String × String) := [
    ("北車", "台北車站"),
    ("台車", "台北車站"),
    ("101", "台北101/世貿"),
    ("西門", "西門"),
    ("淡水", "淡水"),
    ("板橋", "板橋"),
    ("市政府", "市政府"),
    ("東門", "東門"),
    ("忠孝復興", "忠孝復興"),
    ("動物園", "動物園"),
    ("南港展覽館", "南港展覽館"),
    ("象山", "象山"),
    ("頂埔", "頂埔"),
    ("迴龍", "迴龍"),
    ("蘆洲", "蘆洲"),
    ("新店", "新店"),
    ("台電大樓", "台電大樓"),
    ("南勢角", "南勢角"),
    ("大安", "大安"),
    ("木柵", "木柵"),
    ("中山國中", "中山國中"),
    ("松山機場", "松山機場"),
    ("大直", "大直"),
    ("中山", "中山"),
    ("中正紀念堂", "中正紀念堂"),
    ("古亭", "古亭"),
    ("小南門", "小南門"),
    ("松山", "松山"),
    ("景美", "景美"),
    ("公館", "公館"),
    ("萬芳醫院", "萬芳醫院"),
    ("大坪林", "大坪林"),
    ("七張", "七張"),
    ("新店區公所", "新店區公所"),
    ("小碧潭", "小碧潭"),
    ("北投", "北投"),
    ("奇岩", "奇岩"),
    ("唭哩岸", "唭哩岸"),
    ("石牌", "石牌"),
    ("明德", "明德"),
    ("芝山", "芝山"),
    ("士林", "士林"),
    ("劍潭", "劍潭"),
    ("圓山", "圓山"),
    ("民權西路", "民權西路"),
    ("雙連", "雙連"),
    ("善導寺", "善導寺"),
    ("忠孝新生", "忠孝新生"),
    ("忠孝敦化", "忠孝敦化"),
    ("國父紀念館", "國父紀念館"),
    ("永春", "永春"),
    ("後山埤", "後山埤"),
    ("昆陽", "昆陽"),
    ("府中", "府中"),
    ("亞東醫院", "亞東醫院"),
    ("海山", "海山"),
    ("土城", "土城"),
    ("永寧", "永寧"),
    ("頂溪", "頂溪"),
    ("永安市場", "永安市場"),
    ("景安", "景安"),
    ("南勢角", "南勢角"),
    ("景美", "景美"),
    ("萬隆", "萬隆"),
    ("公館", "公館"),
    ("台電大樓", "台電大樓"),
    ("中正紀念堂", "中正紀念堂"),
    ("東門", "東門"),
    ("大橋頭", "大橋頭"),
    ("三重國小", "三重國小"),
    ("三和國中", "三和國中"),
    ("徐匯中學", "徐匯中學"),
    ("三民高中", "三民高中"),
    ("蘆洲", "蘆洲"),
    ("菜寮", "菜寮"),
    ("三重", "三重"),
    ("先嗇宮", "先嗇宮"),
    ("頭前庄", "頭前庄"),
    ("新莊", "新莊"),
    ("輔大", "輔大"),
    ("丹鳳", "丹鳳"),
    ("迴龍", "迴龍"),
    ("南港軟體園區", "南港軟體園區"),
    ("東湖", "東湖"),
    ("葫洲", "葫洲"),
    ("大湖公園", "大湖公園"),
    ("內湖", "內湖"),
    ("文德", "文德"),
    ("港墘", "港墘"),
    ("劍南路", "劍南路"),
    ("西湖", "西湖"),
    ("大直", "大直"),
    ("中山國中", "中山國中"),
    ("南京復興", "南京復興"),
    ("忠孝復興", "忠孝復興"),
    ("大安", "大安"),
    ("科技大樓", "科技大樓"),
    ("六張犁", "六張犁"),
    ("麟光", "麟光"),
    ("辛亥", "辛亥"),
    ("萬芳醫院", "萬芳醫院"),
    ("萬芳社區", "萬芳社區"),
    ("木柵", "木柵"),
    ("動物園", "動物園"),
    ("松山", "松山"),
    ("南京三民", "南京三民"),
    ("台北小巨蛋", "台北小巨蛋"),
    ("松江南京", "松江南京"),
    ("行天宮", "行天宮"),
    ("中山國小", "中山國小"),
    ("大橋頭", "大橋頭"),
    ("大橋頭站", "大橋頭"),
    ("忠孝新生", "忠孝新生"),
    ("忠孝敦化", "忠孝敦化"),
    ("國父紀念館", "國父紀念館"),
    ("永春", "永春"),
    ("後山埤", "後山埤"),
    ("昆陽", "昆陽"),
    ("南港", "南港")]

/-- The alias dict as built in `StationManager.__init__`: every key passed
through `_normalize_name_for_map`, later duplicate keys overwriting
earlier ones. -/
def stationAliases : List (String × String) :=
  rawStationAliases.map (fun p => (normalizeNameForMap p.1, p.2))

/-- `StationManager.resolve_station_alias`. -/
def resolveStationAlias (name : String) : String :=
  if name = "" then ""
  else
    match dictLookup stationAliases (normalizeNameForMap name) with
    | some official => normalizeNameForMap official
    | none => normalizeNameForMap name

/-- `StationManager.get_station_ids`; `smap` stands for `self.station_map`
(normalized name → list of station IDs).  Note `if ids:` in the source is
false both for `None` and for an empty list. -/
def getStationIds (smap : List (String × List String)) (stationName : String) :
    Option (List String) :=
  if stationName = "" then none
  else
    let resolvedKey := resolveStationAlias stationName
    if resolvedKey ≠ "" then
      match dictLookup smap resolvedKey with
      | some ids => if ids ≠ [] then some ids else none
      | none => none
    else none

/-! ## Station-directory cache
`StationManager.update_station_data` serializes the in-memory index as
`{k: sorted(list(v)) for k, v in station_map.items()}` and
`_load_or_create_station_data` returns the parsed JSON object unchanged. -/

/-- Python `sorted` on a list of strings: lexicographic by code point. -/
def sortIds (l : List String) : List String := l.mergeSort (fun a b => a ≤ b)

/-- The cache artifact written by `update_station_data`: same keys, each ID
list sorted. -/
def saveStationIndex (index : List (String × List String)) : List (String × List String) :=
  index.map (fun p => (p.1, sortIds p.2))

/-- `_load_or_create_station_data` on a present, non-empty, well-formed
cache file: returns the parsed object as-is. -/
def loadStationIndex (cache : List (String × List String)) : List (String × List String) :=
  cache

/-! ## Metro graph
`RoutingManager._build_metro_graph` (services/routing_service.py) builds an
undirected `networkx.Graph`.  A `networkx.Graph` is a *simple* graph: there
is at most one edge (one attribute dict) per unordered pair of nodes, and
`add_edge` on an existing pair updates that dict (assigned keys are
overwritten, unassigned keys are kept). -/

inductive EdgeType where
  | ride
  | transfer
deriving DecidableEq

structure EdgeData where
  weight : Nat
  etype : EdgeType
  lineName : Option String
deriving DecidableEq

structure MetroGraph where
  nodes : List String
  adj : List (String × String × EdgeData)
deriving DecidableEq

/-- `G.has_node(u)`. -/
def hasNode (G : MetroGraph) (u : String) : Bool := G.nodes.contains u

/-- Does the stored edge `e` connect the unordered pair `{u, v}`? -/
def matchEdge (u v : String) (e : String × String × EdgeData) : Bool :=
  (e.1 = u && e.2.1 = v) || (e.1 = v && e.2.1 = u)

/-- `G.get_edge_data(u, v)` / `G.has_edge(u, v)`: the attribute record of
the unique edge between `u` and `v`, if any. -/
def edgeFind (G : MetroGraph) (u v : String) : Option EdgeData :=
  (G.adj.find? (matchEdge u v)).map (fun e => e.2.2)

/-- `G.add_node(u)` (a node already present is left alone). -/
def addNode (G : MetroGraph) (u : String) : MetroGraph :=
  if G.nodes.contains u then G else { G with nodes := G.nodes ++ [u] }

/-- `G.add_edge(u, v, **attrs)`: update the attribute record of the
existing edge between `u` and `v` (in either orientation), else append a
new edge.  `f` maps the old attribute record (`none` if the edge is new) to
the new one. -/
def setEdge (G : MetroGraph) (u v : String) (f : Option EdgeData → EdgeData) : MetroGraph :=
  if (edgeFind G u v).isSome then
    { G with adj := G.adj.map (fun e => if matchEdge u v e then (e.1, e.2.1, f (some e.2.2)) else e) }
  else { G with adj := G.adj ++ [(u, v, f none)] }

/-- `G.add_edge(u_id, v_id, weight=3, type='ride', line_name=line_name)`:
all three attributes are assigned, so an existing edge's attributes are
fully overwritten. -/
def addRideEdge (G : MetroGraph) (u v line : String) : MetroGraph :=
  setEdge G u v (fun _ => ⟨3, EdgeType.ride, some line⟩)

/-- `G.add_edge(u, v, weight=5, type='transfer')`: `weight` and `type` are
assigned; a pre-existing `line_name` key is kept (dict update). -/
def addTransferEdge (G : MetroGraph) (u v : String) : MetroGraph :=
  setEdge G u v (fun old =>
    match old with
    | some d => { d with weight := 5, etype := EdgeType.transfer }
    | none => ⟨5, EdgeType.transfer, none⟩)

/-- One record of the TDX `all stations of route` feed: the `RouteID` and
the `StationID`s of its `Stations` array, in order. -/
structure RouteRec where
  routeID : String
  stations : List String
deriving DecidableEq

/-- `re.match(r"([A-Z]+)", route_id)`: the longest uppercase-ASCII prefix,
`none` when the first character is not in `A`–`Z`. -/
def lineCodeOf (routeID : String) : Option String :=
  match routeID.data.takeWhile (fun c => 'A' ≤ c && c ≤ 'Z') with
  | [] => none
  | pre => some ⟨pre⟩

/-- `RoutingManager._get_line_name_and_color`. -/
def lineNameColor (lineCode : String) : String × String :=
  if lineCode = "BL" then ("板南線", "藍線")
  else if lineCode = "BR" then ("文湖線", "棕線")
  else if lineCode = "R" then ("淡水信義線", "紅線")
  else if lineCode = "G" then ("松山新店線", "綠線")
  else if lineCode = "O" then ("中和新蘆線", "橘線")
  else if lineCode = "Y" then ("環狀線", "黃線")
  else (lineCode, "未知顏色")

/-- `self.line_details[line_name]` entry. -/
structure LineDetail where
  color : String
  stations : List String
  terminus : String × String
deriving DecidableEq

/-- First pass over one route's station list: the ride edges between each
consecutive pair of stations (both already nodes), on the route's line. -/
def rideFold (G : MetroGraph) (stations : List String) (line : String) : MetroGraph :=
  (stations.zip stations.tail).foldl
    (fun G p => if hasNode G p.1 && hasNode G p.2 then addRideEdge G p.1 p.2 line else G) G

/-- Second loop body of `_build_metro_graph`: skip a route with no stations
or with no uppercase line code; record the line's station list and termini
the first time the line is seen; add the ride edges. -/
def processRoute (st : MetroGraph × List (String × LineDetail)) (r : RouteRec) :
    MetroGraph × List (String × LineDetail) :=
  match r.stations with
  | [] => st
  | s0 :: rest =>
    match lineCodeOf r.routeID with
    | none => st
    | some code =>
      let nc := lineNameColor code
      let ld := if (dictLookup st.2 nc.1).isSome then st.2
        else st.2 ++ [(nc.1, ⟨nc.2, s0 :: rest, (s0, (s0 :: rest).getLast (List.cons_ne_nil s0 rest))⟩)]
      (rideFold st.1 (s0 :: rest) nc.1, ld)

/-- First loop of `_build_metro_graph`: every station ID of every route
becomes a node (a falsy, i.e. empty, ID is skipped; duplicates are
skipped). -/
def buildNodes (routes : List RouteRec) : MetroGraph :=
  routes.foldl
    (fun G r => r.stations.foldl (fun G sid => if sid ≠ "" then addNode G sid else G) G)
    ⟨[], []⟩

/-- Third loop of `_build_metro_graph`: one transfer edge per pair of the
transfer table whose two endpoints are nodes (the table's cost field is not
read; the weight is the constant 5). -/
def addTransferEdges (G : MetroGraph) (transfers : List (String × String)) : MetroGraph :=
  transfers.foldl
    (fun G t => if hasNode G t.1 && hasNode G t.2 then addTransferEdge G t.1 t.2 else G) G

/-- `RoutingManager._build_metro_graph`: returns the graph and the
`line_details` dict.  An empty route feed yields the empty graph. -/
def buildMetroGraph (routes : List RouteRec) (transfers : List (String × String)) :
    MetroGraph × List (String × LineDetail) :=
  if routes = [] then (⟨[], []⟩, [])
  else
    let st := routes.foldl processRoute (buildNodes routes, [])
    (addTransferEdges st.1 transfers, st.2)

/-- Number of stored edges between the unordered pair `{u, v}`. -/
def countEdgesBetween (G : MetroGraph) (u v : String) : Nat :=
  (G.adj.filter (matchEdge u v)).length

/-- Simple-graph invariant: at most one stored edge per unordered pair. -/
def edgeUniq (G : MetroGraph) : Prop := ∀ u v, countEdgesBetween G u v ≤ 1

/-- Some stored edge between `{u, v}` has weight 5 and type `transfer`. -/
def hasTransfer5 (G : MetroGraph) (u v : String) : Prop :=
  ∃ e ∈ G.adj, matchEdge u v e = true ∧ e.2.2.weight = 5 ∧ e.2.2.etype = EdgeType.transfer

/-! ## Shortest paths
`find_shortest_path` calls `nx.dijkstra_path` / `nx.dijkstra_path_length`
(weight `'weight'`), and `_generate_directions_from_ids` calls
`nx.shortest_path_length` with no weight (hop count).  Both are modelled by
exhaustive enumeration of the simple paths of the (undirected) graph: the
weighted search returns a path of minimum total weight together with that
weight, the unweighted one the minimum number of edges. -/

/-- `d['weight']` of the edge between `u` and `v`. -/
def edgeW (G : MetroGraph) (u v : String) : Option Nat :=
  (edgeFind G u v).map (fun d => d.weight)

/-- Total edge weight along a node sequence; `none` when two consecutive
nodes have no edge, `some 0` on a single node. -/
def chainW (G : MetroGraph) : List String → Option Nat
  | [] => none
  | [_] => some 0
  | u :: v :: rest =>
    match edgeW G u v, chainW G (v :: rest) with
    | some w, some d => some (w + d)
    | _, _ => none

/-- All simple paths from `u` to `target` through nodes of `G` that avoid
`visited`, paired with their total weights.  `fuel` bounds the number of
nodes on a path; `G.nodes.length + 1` is always enough for a simple path. -/
def spAux (G : MetroGraph) (visited : List String) (u target : String) :
    Nat → List (List String × Nat)
  | 0 => []
  | fuel + 1 =>
    if u = target then [([u], 0)]
    else
      (G.nodes.filter (fun w => !(u :: visited).contains w && (edgeW G u w).isSome)).flatMap
        (fun w =>
          (spAux G (u :: visited) w target fuel).map
            (fun pd => (u :: pd.1, (edgeW G u w).getD 0 + pd.2)))

/-- First entry of minimum weight. -/
def pickMin (l : List (List String × Nat)) : Option (List String × Nat) :=
  l.foldl
    (fun acc pd =>
      match acc with
      | none => some pd
      | some qd => if pd.2 < qd.2 then some pd else acc)
    none

/-- Model of `nx.dijkstra_path` + `nx.dijkstra_path_length` (weighted): a
minimum-total-weight simple path from `s` to `t` and its weight; `none`
exactly when no path exists (`NetworkXNoPath`). -/
def dijkstra (G : MetroGraph) (s t : String) : Option (List String × Nat) :=
  pickMin (spAux G [] s t (G.nodes.length + 1))

/-- First minimum of a list of numbers. -/
def minNat (l : List Nat) : Option Nat :=
  l.foldl
    (fun acc n =>
      match acc with
      | none => some n
      | some m => if n < m then some n else acc)
    none

/-- Model of unweighted `nx.shortest_path_length(G, source, target)`: the
minimum number of edges of a path from `s` to `t`; `none` when no path
exists or an endpoint is absent (`NetworkXNoPath` / `NodeNotFound`). -/
def hopDist (G : MetroGraph) (s t : String) : Option Nat :=
  minNat ((spAux G [] s t (G.nodes.length + 1)).map (fun pd => pd.1.length - 1))

/-! ## Routing manager
`RoutingManager.find_shortest_path` and
`RoutingManager._generate_directions_from_ids`. -/

/-- The state of a constructed `RoutingManager`: `station_manager.station_map`,
`self.graph`, `self.line_details`, `self.station_id_to_name`. -/
structure RoutingState where
  smap : List (String × List String)
  graph : MetroGraph
  lineDetails : List (String × LineDetail)
  idToName : List (String × String)

/-- `self.station_id_to_name.get(sid, sid)`. -/
def nameOf (M : RoutingState) (sid : String) : String :=
  (dictLookup M.idToName sid).getD sid

/-- Python f-string rendering of a value that may be `None`. -/
def fmtLine : Option String → String
  | some s => s
  | none => "None"

/-- `self.line_details.get(line_name)` where `line_name` may be `None`. -/
def lineInfoOf (M : RoutingState) : Option String → Option LineDetail
  | some s => dictLookup M.lineDetails s
  | none => none

/-- `list(dict.fromkeys(directions))`: de-duplicate, keeping the first
occurrence of each string, preserving order. -/
def dedupPreserve (l : List String) : List String :=
  l.foldl (fun acc s => if acc.contains s then acc else acc ++ [s]) []

/-- `f"在「{...}」站，轉乘【{...} ({...})】。"` -/
def transferDirective (tname lstr lcolor : String) : String :=
  s!"在「{tname}」站，轉乘【{lstr} ({lcolor})】。"

/-- `f"搭乘【{...} ({...})】，往「{...}」方向。"` -/
def rideDirectiveTowards (lstr lcolor dname : String) : String :=
  s!"搭乘【{lstr} ({lcolor})】，往「{dname}」方向。"

/-- `f"搭乘【{...} ({...})】。"` (directional qualifier omitted). -/
def rideDirectivePlain (lstr lcolor : String) : String :=
  s!"搭乘【{lstr} ({lcolor})】。"

/-- `f"搭乘【{...}】。"` (no line info found). -/
def rideDirectiveBare (lstr : String) : String := s!"搭乘【{lstr}】。"

/-- `f"從「{...}」站上車。"` -/
def boardDirective (sname : String) : String := s!"從「{sname}」站上車。"

/-- `f"在「{...}」站下車，抵達目的地。"` -/
def arriveDirective (ename : String) : String := s!"在「{ename}」站下車，抵達目的地。"

/-- One iteration of the direction loop, at the consecutive pair `uv` of
the path; the state is (`current_line`, directions so far). -/
def directionsStep (M : RoutingState) (st : Option String × List String)
    (uv : String × String) : Option String × List String :=
  match edgeFind M.graph uv.1 uv.2 with
  | none => st
  | some ed =>
    match ed.etype with
    | EdgeType.transfer => st
    | EdgeType.ride =>
      let lineName := ed.lineName
      if lineName = st.1 then st
      else
        let transferDirs :=
          match st.1 with
          | none => []
          | some _ =>
            let lcolor :=
              match lineInfoOf M lineName with
              | some li => li.color
              | none => "未知顏色"
            [transferDirective (nameOf M uv.1) (fmtLine lineName) lcolor]
        let rideDirs :=
          match lineInfoOf M lineName with
          | some li =>
            match hopDist M.graph uv.1 li.terminus.1, hopDist M.graph uv.2 li.terminus.1 with
            | some du, some dv =>
              let dirId := if dv < du then li.terminus.1 else li.terminus.2
              [rideDirectiveTowards (fmtLine lineName) li.color (nameOf M dirId)]
            | _, _ => [rideDirectivePlain (fmtLine lineName) li.color]
          | none => [rideDirectiveBare (fmtLine lineName)]
        (lineName, st.2 ++ transferDirs ++ rideDirs)

/-- The placeholder directive for node sequences shorter than two. -/
def tooShortDirective : String := "路徑資訊不足，無法生成指引。"

/-- `RoutingManager._generate_directions_from_ids`. -/
def generateDirectionsFromIds (M : RoutingState) (pathIds : List String) : List String :=
  match pathIds with
  | p0 :: p1 :: rest =>
    let pairs := (p0 :: p1 :: rest).zip (p1 :: rest)
    let st := pairs.foldl (directionsStep M) (none, [boardDirective (nameOf M p0)])
    let endName := nameOf M ((p0 :: p1 :: rest).getLast (List.cons_ne_nil _ _))
    dedupPreserve (st.2 ++ [arriveDirective endName])
  | _ => [tooShortDirective]

inductive RoutingError where
  | stationNotFound (msg : String)
  | routeNotFound (msg : String)
deriving DecidableEq

structure RouteResult where
  start_station : String
  end_station : String
  path_details : List String
  estimated_time_minutes : Nat
  message : String
deriving DecidableEq

def notReadyMsg : String := "抱歉，路網圖尚未準備好。"

def startNotFoundMsg (name : String) : String := s!"找不到起點站「{name}」。"

def endNotFoundMsg (name : String) : String := s!"找不到終點站「{name}」。"

def noRouteMsg (a b : String) : String := s!"無法從「{a}」規劃到「{b}」。"

def resultMessage (a b : String) (t : Nat) (details : List String) : String :=
  let ts := toString t
  s!"從「{a}」到「{b}」的預估時間約為 {ts} 分鐘。詳細路線：\n" ++ String.intercalate "\n" details

/-- `(startID, endID)` combinations in loop order. -/
def comboPairs (ss es : List String) : List (String × String) :=
  ss.flatMap (fun s => es.map (fun e => (s, e)))

/-- One iteration of the double loop of `find_shortest_path`: when both IDs
of the combination are graph nodes, run the weighted search, and keep the
new path exactly when its weight is strictly below the minimum seen so far
(`path_weight < min_weight`; `NetworkXNoPath` is skipped). -/
def bestComboStep (G : MetroGraph) (acc : Option (List String × Nat)) (se : String × String) :
    Option (List String × Nat) :=
  if hasNode G se.1 && hasNode G se.2 then
    match dijkstra G se.1 se.2 with
    | some pw =>
      match acc with
      | none => some pw
      | some qw => if pw.2 < qw.2 then some pw else acc
    | none => acc
  else acc

/-- The double loop of `find_shortest_path`: run the weighted search for
every combination whose two IDs are graph nodes, tracking the strictly
smallest total weight seen. -/
def bestCombo (G : MetroGraph) (ss es : List String) : Option (List String × Nat) :=
  (comboPairs ss es).foldl (bestComboStep G) none

/-- `RoutingManager.find_shortest_path`.  `round` of the integral total
weight is the weight itself. -/
def findShortestPath (M : RoutingState) (startName endName : String) :
    Except RoutingError RouteResult :=
  if M.graph.nodes = [] then Except.error (RoutingError.routeNotFound notReadyMsg)
  else
    match getStationIds M.smap startName with
    | none => Except.error (RoutingError.stationNotFound (startNotFoundMsg startName))
    | some [] => Except.error (RoutingError.stationNotFound (startNotFoundMsg startName))
    | some startIds =>
      match getStationIds M.smap endName with
      | none => Except.error (RoutingError.stationNotFound (endNotFoundMsg endName))
      | some [] => Except.error (RoutingError.stationNotFound (endNotFoundMsg endName))
      | some endIds =>
        match bestCombo M.graph startIds endIds with
        | none => Except.error (RoutingError.routeNotFound (noRouteMsg startName endName))
        | some pw =>
          if pw.1 = [] then Except.error (RoutingError.routeNotFound (noRouteMsg startName endName))
          else
            let details := generateDirectionsFromIds M pw.1
            Except.ok
              { start_station := startName
                end_station := endName
                path_details := details
                estimated_time_minutes := pw.2
                message := resultMessage startName endName pw.2 details }

/-- Demo routing state for the ambiguous-transfer-station scenario: the
name `ambi` resolves to the two IDs `CX` and `CY`; the destination `D0` is
reachable only from the second of them. -/
def c1Built : MetroGraph × List (String × LineDetail) :=
  buildMetroGraph [⟨"X", ["A0", "CX"]⟩, ⟨"Y", ["CY", "D0"]⟩] []

def c1State : RoutingState :=
  ⟨[("ambi", ["CX", "CY"]), ("dest", ["D0"])], c1Built.1, c1Built.2, []⟩

/-- Every edge stored by the builder has the literal weight 3 or 5. -/
def weightsOk (G : MetroGraph) : Prop :=
  ∀ e ∈ G.adj, e.2.2.weight = 3 ∨ e.2.2.weight = 5

/-- Demo state whose two names share the graph node `CX`. -/
def c10State : RoutingState :=
  ⟨[("here", ["CX"]), ("near", ["CX", "D0"])], c1Built.1, c1Built.2, []⟩

/-- Demo state for the direction-labeling analysis: one line `L` with
stations `A1 — B1 — C1 — D1` and a transfer edge `D1 — A1`, so that from
the ride segment `A1 → B1` neither terminus is strictly closer to the
segment's last node than to its first (`d(B1,A1)=1 > d(A1,A1)=0` and
`d(B1,D1)=2 > d(A1,D1)=1`). -/
def c5Built : MetroGraph × List (String × LineDetail) :=
  buildMetroGraph [⟨"L", ["A1", "B1", "C1", "D1"]⟩] [("D1", "A1")]

def c5State : RoutingState := ⟨[], c5Built.1, c5Built.2, []⟩

/-- Outcome of name resolution as the spec's tagged union: a definite ID
list, a suggestion signal carrying the matched name and the original
query, or not-found. -/
inductive ResolveOutcome where
  | resolved (ids : List String)
  | suggestion (matchedName originalQuery : String)
  | notFound
deriving DecidableEq

/-- Modelled from the spec: the three-tier fuzzy resolution policy of
`StationDirectory.resolveIds` (spec §4.2).  The mid-band logic is missing
from the source tree — `StationManager.get_station_ids` returns `None` on
an exact-lookup miss and `RealtimeMRTService.search_station` applies a
single FAISS distance threshold with no suggestion band — so this follows
the spec's words: normalize the input; on an exact hit return the ID list;
otherwise consult the fuzzy matcher, resolving silently through the
matched name above the high threshold, returning a
`SuggestionSignal{suggestion, originalQuery}` in the mid-confidence band,
and returning null below the low threshold or without a matcher result. -/
def resolveIds (index : List (String × List String))
    (matcher : String → Option (String × ℚ)) (low high : ℚ) (rawName : String) :
    ResolveOutcome :=
  match dictLookup index (normalizeNameForMap rawName) with
  | some ids => ResolveOutcome.resolved ids
  | none =>
    match matcher rawName with
    | some ms =>
      if ms.2 ≥ high then
        match dictLookup index (normalizeNameForMap ms.1) with
        | some ids => ResolveOutcome.resolved ids
        | none => ResolveOutcome.notFound
      else if ms.2 > low then ResolveOutcome.suggestion ms.1 rawName
      else ResolveOutcome.notFound
    | none => ResolveOutcome.notFound

/-! ## Theorems -/

theorem afterClose_length : ∀ {l r : List Char}, afterClose l = some r → r.length < l.length := by
  intro l
  induction l with
  | nil => intro r h; simp [afterClose] at h
  | cons c cs ih =>
    intro r h
    unfold afterClose at h
    by_cases hc : isCloseParen c
    · simp [hc] at h
      simp [← h]
    · simp [hc] at h
      have := ih h
      simp
      omega

theorem stripParensF_cons_some {fuel : Nat} {c : Char} {cs rest : List Char}
    (hopen : isOpenParen c = true) (h : afterClose cs = some rest) :
    stripParensF (fuel + 1) (c :: cs) = stripParensF fuel rest := by
  simp only [stripParensF, hopen, if_true, h]

theorem stripParensF_cons_none {fuel : Nat} {c : Char} {cs : List Char}
    (hopen : isOpenParen c = true) (h : afterClose cs = none) :
    stripParensF (fuel + 1) (c :: cs) = c :: stripParensF fuel cs := by
  simp only [stripParensF, hopen, if_true, h]

theorem stripParensF_cons_notopen {fuel : Nat} {c : Char} {cs : List Char}
    (hopen : isOpenParen c = false) :
    stripParensF (fuel + 1) (c :: cs) = c :: stripParensF fuel cs := by
  simp only [stripParensF, hopen, Bool.false_eq_true, if_false]

theorem afterClose_isSome_iff {l : List Char} :
    (afterClose l).isSome = true ↔ ∃ c ∈ l, isCloseParen c = true := by
  induction l with
  | nil => simp [afterClose]
  | cons c cs ih =>
    unfold afterClose
    by_cases hc : isCloseParen c
    · simp [hc]
    · simp [hc, ih]

theorem hasParenMatch_of_sublist {l₁ l₂ : List Char} (h : l₁.Sublist l₂)
    (hm : hasParenMatch l₁ = true) : hasParenMatch l₂ = true := by
  induction h with
  | slnil => exact hm
  | cons a _ ih =>
    unfold hasParenMatch
    rw [ih hm]
    simp
  | cons₂ a hsub ih =>
    unfold hasParenMatch at hm ⊢
    rcases (Bool.or_eq_true _ _).mp hm with hleft | hright
    · rcases Bool.and_eq_true_iff.mp hleft with ⟨ho, hs⟩
      rcases afterClose_isSome_iff.mp hs with ⟨c, hc, hcc⟩
      have : (afterClose _).isSome = true :=
        afterClose_isSome_iff.mpr ⟨c, hsub.mem hc, hcc⟩
      rw [ho, this]
      simp
    · rw [ih hright]
      simp

theorem afterClose_sublist : ∀ {l r : List Char}, afterClose l = some r → r.Sublist l := by
  intro l
  induction l with
  | nil => intro r h; simp [afterClose] at h
  | cons c cs ih =>
    intro r h
    unfold afterClose at h
    by_cases hc : isCloseParen c
    · simp [hc] at h
      rw [← h]
      exact (List.sublist_cons_self c cs)
    · simp [hc] at h
      exact (ih h).cons c

theorem stripParensF_sublist : ∀ (fuel : Nat) (l : List Char), (stripParensF fuel l).Sublist l := by
  intro fuel
  induction fuel with
  | zero => intro l; exact List.Sublist.refl l
  | succ fuel ih =>
    intro l
    match l with
    | [] => simp [stripParensF]
    | c :: cs =>
      by_cases hopen : isOpenParen c
      · match h : afterClose cs with
        | some rest =>
          rw [stripParensF_cons_some hopen h]
          exact ((ih rest).trans (afterClose_sublist h)).trans (List.sublist_cons_self c cs)
        | none =>
          rw [stripParensF_cons_none hopen h]
          exact (ih cs).cons₂ c
      · rw [stripParensF_cons_notopen (Bool.eq_false_iff.mpr hopen)]
        exact (ih cs).cons₂ c

theorem stripParensF_no_match : ∀ (fuel : Nat) (l : List Char), l.length ≤ fuel →
    hasParenMatch (stripParensF fuel l) = false := by
  intro fuel
  induction fuel with
  | zero =>
    intro l hl
    have : l = [] := List.length_eq_zero.mp (Nat.le_zero.mp hl)
    subst this
    simp [stripParensF, hasParenMatch]
  | succ fuel ih =>
    intro l hl
    match l with
    | [] => simp [stripParensF, hasParenMatch]
    | c :: cs =>
      simp only [List.length_cons, Nat.add_le_add_iff_right] at hl
      by_cases hopen : isOpenParen c
      · match h : afterClose cs with
        | some rest =>
          rw [stripParensF_cons_some hopen h]
          exact ih rest (le_trans (le_of_lt (afterClose_length h)) hl)
        | none =>
          rw [stripParensF_cons_none hopen h]
          unfold hasParenMatch
          rw [ih cs hl]
          have hnone : (afterClose (stripParensF fuel cs)).isSome = false := by
            rw [Bool.eq_false_iff]
            intro hs
            rcases afterClose_isSome_iff.mp hs with ⟨d, hd, hdc⟩
            have hdcs : d ∈ cs := (stripParensF_sublist fuel cs).mem hd
            have : (afterClose cs).isSome = true := afterClose_isSome_iff.mpr ⟨d, hdcs, hdc⟩
            rw [h] at this
            simp at this
          rw [hnone]
          simp
      · rw [stripParensF_cons_notopen (Bool.eq_false_iff.mpr hopen)]
        unfold hasParenMatch
        rw [ih cs hl]
        simp [hopen]

theorem stripParensF_of_no_match : ∀ (fuel : Nat) (l : List Char), hasParenMatch l = false →
    stripParensF fuel l = l := by
  intro fuel
  induction fuel with
  | zero => intro l _; rfl
  | succ fuel ih =>
    intro l hm
    match l with
    | [] => simp [stripParensF]
    | c :: cs =>
      unfold hasParenMatch at hm
      rcases Bool.or_eq_false_iff.mp hm with ⟨hleft, hright⟩
      by_cases hopen : isOpenParen c
      · rw [hopen] at hleft
        simp only [Bool.true_and] at hleft
        match h : afterClose cs with
        | some rest =>
          rw [h] at hleft
          simp at hleft
        | none =>
          rw [stripParensF_cons_none hopen h, ih cs hright]
      · rw [stripParensF_cons_notopen (Bool.eq_false_iff.mpr hopen), ih cs hright]

theorem stripParens_no_match (l : List Char) : hasParenMatch (stripParens l) = false :=
  stripParensF_no_match l.length l (le_refl _)

theorem stripParens_of_no_match (l : List Char) (hm : hasParenMatch l = false) :
    stripParens l = l :=
  stripParensF_of_no_match l.length l hm

theorem toLower_toNat_of_upper {c : Char} (h : c.toNat ≥ 65 ∧ c.toNat ≤ 90) :
    c.toLower.toNat = c.toNat + 32 := by
  have hvalid : (c.toNat + 32).isValidChar := by
    left
    omega
  unfold Char.toLower
  rw [if_pos h]
  unfold Char.ofNat
  rw [dif_pos hvalid]
  rfl

theorem toLower_eq_self {c : Char} (h : ¬(c.toNat ≥ 65 ∧ c.toNat ≤ 90)) : c.toLower = c := by
  unfold Char.toLower
  rw [if_neg h]

theorem toLower_toLower (c : Char) : c.toLower.toLower = c.toLower := by
  by_cases h : c.toNat ≥ 65 ∧ c.toNat ≤ 90
  · have h1 := toLower_toNat_of_upper h
    apply toLower_eq_self
    rw [h1]
    omega
  · rw [toLower_eq_self h, toLower_eq_self h]

theorem isOpenParen_toLower (c : Char) : isOpenParen c.toLower = isOpenParen c := by
  by_cases h : c.toNat ≥ 65 ∧ c.toNat ≤ 90
  · have h1 := toLower_toNat_of_upper h
    have n1 : c.toLower ≠ '（' := by
      intro he
      rw [he] at h1
      have e1 : ('（' : Char).toNat = 65288 := by decide
      rw [e1] at h1
      omega
    have n2 : c.toLower ≠ '(' := by
      intro he
      rw [he] at h1
      have e2 : ('(' : Char).toNat = 40 := by decide
      rw [e2] at h1
      omega
    have n3 : c ≠ '（' := by
      intro he
      rw [he] at h
      exact absurd h (by decide)
    have n4 : c ≠ '(' := by
      intro he
      rw [he] at h
      exact absurd h (by decide)
    unfold isOpenParen
    rw [decide_eq_false n1, decide_eq_false n2, decide_eq_false n3, decide_eq_false n4]
  · rw [toLower_eq_self h]

theorem isCloseParen_toLower (c : Char) : isCloseParen c.toLower = isCloseParen c := by
  by_cases h : c.toNat ≥ 65 ∧ c.toNat ≤ 90
  · have h1 := toLower_toNat_of_upper h
    have n1 : c.toLower ≠ '）' := by
      intro he
      rw [he] at h1
      have e1 : ('）' : Char).toNat = 65289 := by decide
      rw [e1] at h1
      omega
    have n2 : c.toLower ≠ ')' := by
      intro he
      rw [he] at h1
      have e2 : (')' : Char).toNat = 41 := by decide
      rw [e2] at h1
      omega
    have n3 : c ≠ '）' := by
      intro he
      rw [he] at h
      exact absurd h (by decide)
    have n4 : c ≠ ')' := by
      intro he
      rw [he] at h
      exact absurd h (by decide)
    unfold isCloseParen
    rw [decide_eq_false n1, decide_eq_false n2, decide_eq_false n3, decide_eq_false n4]
  · rw [toLower_eq_self h]

theorem afterClose_map_toLower (l : List Char) :
    afterClose (l.map Char.toLower) = (afterClose l).map (List.map Char.toLower) := by
  induction l with
  | nil => simp [afterClose]
  | cons c cs ih =>
    simp only [List.map_cons]
    unfold afterClose
    rw [isCloseParen_toLower]
    by_cases hc : isCloseParen c
    · simp [hc]
    · simp only [hc, Bool.false_eq_true, if_false]
      exact ih

theorem hasParenMatch_map_toLower (l : List Char) :
    hasParenMatch (l.map Char.toLower) = hasParenMatch l := by
  induction l with
  | nil => simp [hasParenMatch]
  | cons c cs ih =>
    simp only [List.map_cons]
    unfold hasParenMatch
    rw [isOpenParen_toLower, afterClose_map_toLower, ih]
    cases afterClose cs <;> simp

theorem map_toLower_idem (l : List Char) :
    (l.map Char.toLower).map Char.toLower = l.map Char.toLower := by
  rw [List.map_map]
  apply List.map_congr_left
  intro a _
  exact toLower_toLower a

theorem zhanSplit_sublist {l m : List Char} (h : zhanSplit l = some m) : m.Sublist l := by
  unfold zhanSplit at h
  have hrev : l = l.reverse.reverse := (List.reverse_reverse l).symm
  match hr : l.reverse with
  | [] => rw [hr] at h; simp at h
  | c :: r =>
    rw [hr] at h
    dsimp only at h
    by_cases hc : c = '站'
    · rw [if_pos hc] at h
      injection h with h
      rw [hrev, hr, ← h, hc]
      simp only [List.reverse_cons]
      exact List.sublist_append_left _ _
    · rw [if_neg hc] at h
      match r with
      | [] => simp at h
      | c2 :: r2 =>
        dsimp only at h
        by_cases h2 : c = '\n' && c2 = '站'
        · rw [if_pos h2] at h
          injection h with h
          rcases Bool.and_eq_true_iff.mp h2 with ⟨hcn, hc2⟩
          have hcn' : c = '\n' := by exact of_decide_eq_true hcn
          have hc2' : c2 = '站' := by exact of_decide_eq_true hc2
          rw [hrev, hr, ← h, hcn', hc2']
          simp only [List.reverse_cons]
          rw [List.append_assoc]
          apply List.Sublist.append_left
          decide
        · rw [if_neg h2] at h
          simp at h

theorem stripZhan_sublist (l : List Char) : (stripZhan l).Sublist l := by
  unfold stripZhan
  match h : zhanSplit l with
  | some m => exact zhanSplit_sublist h
  | none => exact List.Sublist.refl l

theorem normalizeChars_fixed {x : List Char}
    (hpm : hasParenMatch x = false) (hz : zhanSplit x = none)
    (hlow : x.map Char.toLower = x) : normalizeChars x = x := by
  unfold normalizeChars
  rw [stripParens_of_no_match x hpm]
  unfold stripZhan
  rw [hz]
  exact hlow

/-- C7 (amended): `_normalize_name_for_map` is idempotent on every input
whose normalized form does not still end in a strippable `站` (a second pass
strips one more trailing `站`, so idempotence can only fail there). -/
theorem normalize_name_idempotent_of_not_zhan (s : String)
    (h : endsInZhan (normalizeNameForMap s) = false) :
    normalizeNameForMap (normalizeNameForMap s) = normalizeNameForMap s := by
  by_cases hs : s = ""
  · subst hs
    simp [normalizeNameForMap]
  · by_cases hx : normalizeNameForMap s = ""
    · rw [hx]
      simp [normalizeNameForMap]
    · have hdata : (normalizeNameForMap s).data = normalizeChars s.data := by
        rw [normalizeNameForMap, if_neg hs]
      have hz : zhanSplit (normalizeChars s.data) = none := by
        unfold endsInZhan at h
        rw [hdata] at h
        cases hzs : zhanSplit (normalizeChars s.data) with
        | none => rfl
        | some m => rw [hzs] at h; simp at h
      have hpm : hasParenMatch (normalizeChars s.data) = false := by
        unfold normalizeChars
        rw [hasParenMatch_map_toLower]
        rw [Bool.eq_false_iff]
        intro ht
        have := hasParenMatch_of_sublist (stripZhan_sublist (stripParens s.data)) ht
        rw [stripParens_no_match s.data] at this
        simp at this
      have hlow : (normalizeChars s.data).map Char.toLower = normalizeChars s.data := by
        unfold normalizeChars
        exact map_toLower_idem _
      have hfix := normalizeChars_fixed hpm hz hlow
      rw [normalizeNameForMap, if_neg hx, hdata, hfix]
      rw [normalizeNameForMap, if_neg hs]

/-- Witness for C7 (amended) at a concrete station name with a bracketed
annotation and a single `站` suffix. -/
theorem normalize_name_idempotent_witness :
    endsInZhan (normalizeNameForMap "台北車站(淡水線)") = false ∧
      normalizeNameForMap (normalizeNameForMap "台北車站(淡水線)") =
        normalizeNameForMap "台北車站(淡水線)" :=
  ⟨by decide, normalize_name_idempotent_of_not_zhan _ (by decide)⟩

/-- C7 (counterexample): normalization is not idempotent on every string —
`"站站"` normalizes to `"站"`, which a second pass normalizes to `""`. -/
theorem normalize_name_not_idempotent :
    normalizeNameForMap (normalizeNameForMap "站站") ≠ normalizeNameForMap "站站" := by
  decide

theorem aliasTable_lookup_raw :
    ∀ p ∈ rawStationAliases,
      dictLookup stationAliases (normalizeNameForMap p.1) = some p.2 := by decide

theorem aliasTable_official_stable :
    ∀ p ∈ rawStationAliases,
      ∀ o', dictLookup stationAliases (normalizeNameForMap p.2) = some o' →
        normalizeNameForMap o' = normalizeNameForMap p.2 := by decide

theorem aliasTable_raw_nonempty : ∀ p ∈ rawStationAliases, p.1 ≠ "" := by decide

theorem aliasTable_official_nonempty : ∀ p ∈ rawStationAliases, p.2 ≠ "" := by decide

theorem aliasTable_official_norm_nonempty :
    ∀ p ∈ rawStationAliases, normalizeNameForMap p.2 ≠ "" := by decide

/-- C8: for every alias/official pair seeded in `station_aliases`, once the
station map contains the official name's normalized key with a non-empty ID
list, `get_station_ids` resolves the alias and the official name to exactly
the same ID list. -/
theorem alias_resolves_like_official
    (smap : List (String × List String)) (raw official : String) (ids : List String)
    (hmem : (raw, official) ∈ rawStationAliases)
    (hsmap : dictLookup smap (normalizeNameForMap official) = some ids)
    (hne : ids ≠ []) :
    getStationIds smap raw = some ids ∧ getStationIds smap official = some ids := by
  have hL1 := aliasTable_lookup_raw (raw, official) hmem
  have hrawne := aliasTable_raw_nonempty (raw, official) hmem
  have hoffne := aliasTable_official_nonempty (raw, official) hmem
  have hnormne := aliasTable_official_norm_nonempty (raw, official) hmem
  constructor
  · unfold getStationIds
    rw [if_neg hrawne]
    have hres : resolveStationAlias raw = normalizeNameForMap official := by
      unfold resolveStationAlias
      rw [if_neg hrawne, hL1]
    rw [hres]
    simp only [hnormne, if_true, ne_eq, not_false_iff, hsmap, hne]
  · unfold getStationIds
    rw [if_neg hoffne]
    have hres : resolveStationAlias official = normalizeNameForMap official := by
      unfold resolveStationAlias
      rw [if_neg hoffne]
      cases hl : dictLookup stationAliases (normalizeNameForMap official) with
      | none => rfl
      | some o' =>
        exact aliasTable_official_stable (raw, official) hmem o' hl
    rw [hres]
    simp only [hnormne, if_true, ne_eq, not_false_iff, hsmap, hne]

/-- Witness for C8: with a station map that contains the normalized key of
the official name `台北車站`, the alias `北車` and the official name return
the same ID list. -/
theorem alias_resolves_like_official_witness :
    getStationIds [("台北車", ["BL12", "R10"])] "北車" = some ["BL12", "R10"] ∧
      getStationIds [("台北車", ["BL12", "R10"])] "台北車站" = some ["BL12", "R10"] :=
  alias_resolves_like_official [("台北車", ["BL12", "R10"])] "北車" "台北車站"
    ["BL12", "R10"] (by decide) (by decide) (by decide)

theorem dictLookup_sortIds (ps : List (String × List String)) (k : String) :
    dictLookup (ps.map (fun p => (p.1, sortIds p.2))) k = (dictLookup ps k).map sortIds := by
  unfold dictLookup
  suffices h : ∀ acc : Option (List String),
      (ps.map (fun p => (p.1, sortIds p.2))).foldl (fun acc p => if p.1 = k then some p.2 else acc)
          (acc.map sortIds) =
        (ps.foldl (fun acc p => if p.1 = k then some p.2 else acc) acc).map sortIds by
    exact h none
  induction ps with
  | nil => intro acc; rfl
  | cons p ps ih =>
    intro acc
    simp only [List.map_cons, List.foldl_cons]
    by_cases hk : p.1 = k
    · rw [if_pos hk, if_pos hk]
      exact ih (some p.2)
    · rw [if_neg hk, if_neg hk]
      exact ih acc

theorem sortIds_perm (l : List String) : (sortIds l).Perm l := List.mergeSort_perm l _

/-- C9: the station-directory cache round-trips — for every key, an ID is
in the ID list of `load(save(index))` iff it is in the ID list of the
in-memory index (the saved value is a sorted permutation of the original).
-/
theorem cache_round_trip (index : List (String × List String)) (k : String) (id : String) :
    (∃ ids ∈ dictLookup (loadStationIndex (saveStationIndex index)) k, id ∈ ids) ↔
      ∃ ids ∈ dictLookup index k, id ∈ ids := by
  unfold loadStationIndex saveStationIndex
  rw [dictLookup_sortIds]
  cases h : dictLookup index k with
  | none => simp
  | some ids =>
    simp only [Option.map_some', Option.mem_def, Option.some.injEq]
    constructor
    · rintro ⟨ids2, h1, h2⟩
      refine ⟨ids, rfl, ?_⟩
      rw [← h1] at h2
      exact (sortIds_perm ids).mem_iff.mp h2
    · rintro ⟨ids2, h1, h2⟩
      subst h1
      refine ⟨sortIds ids, rfl, ?_⟩
      exact (sortIds_perm ids).mem_iff.mpr h2

theorem matchEdge_symm (u v : String) (e : String × String × EdgeData) :
    matchEdge u v e = matchEdge v u e := by
  unfold matchEdge
  exact Bool.or_comm _ _

theorem matchEdge_data (a b x y : String) (d d' : EdgeData) :
    matchEdge a b (x, y, d) = matchEdge a b (x, y, d') := rfl

theorem matchEdge_congr {u v u' v' : String} {d : EdgeData}
    (h : matchEdge u v (u', v', d) = true) :
    ∀ e, matchEdge u' v' e = matchEdge u v e := by
  intro e
  unfold matchEdge at h
  rcases (Bool.or_eq_true _ _).mp h with h1 | h1
  · rcases Bool.and_eq_true_iff.mp h1 with ⟨ha, hb⟩
    have ha' : u' = u := of_decide_eq_true ha
    have hb' : v' = v := of_decide_eq_true hb
    rw [ha', hb']
  · rcases Bool.and_eq_true_iff.mp h1 with ⟨ha, hb⟩
    have ha' : u' = v := of_decide_eq_true ha
    have hb' : v' = u := of_decide_eq_true hb
    rw [ha', hb', matchEdge_symm]

theorem setEdge_nodes (G : MetroGraph) (u v : String) (f : Option EdgeData → EdgeData) :
    (setEdge G u v f).nodes = G.nodes := by
  unfold setEdge
  split <;> rfl

theorem addTransferEdge_nodes (G : MetroGraph) (u v : String) :
    (addTransferEdge G u v).nodes = G.nodes := setEdge_nodes G u v _

theorem addRideEdge_nodes (G : MetroGraph) (u v line : String) :
    (addRideEdge G u v line).nodes = G.nodes := setEdge_nodes G u v _

theorem addTransferEdges_nodes (transfers : List (String × String)) (G : MetroGraph) :
    (addTransferEdges G transfers).nodes = G.nodes := by
  induction transfers generalizing G with
  | nil => rfl
  | cons t ts ih =>
    unfold addTransferEdges at ih ⊢
    simp only [List.foldl_cons]
    rw [ih]
    split
    · exact addTransferEdge_nodes G t.1 t.2
    · rfl

theorem countEdgesBetween_setEdge_map (G : MetroGraph) (u v a b : String)
    (f : Option EdgeData → EdgeData) :
    ((G.adj.map (fun e => if matchEdge u v e then (e.1, e.2.1, f (some e.2.2)) else e)).filter
        (matchEdge a b)).length = countEdgesBetween G a b := by
  unfold countEdgesBetween
  induction G.adj with
  | nil => rfl
  | cons e es ih =>
    simp only [List.map_cons]
    by_cases hm : matchEdge u v e
    · rw [if_pos hm]
      have : matchEdge a b (e.1, e.2.1, f (some e.2.2)) = matchEdge a b e := by
        match e with
        | (x, y, d) => exact matchEdge_data a b x y _ _
      by_cases hab : matchEdge a b e
      · rw [List.filter_cons_of_pos, List.filter_cons_of_pos]
        · simp only [List.length_cons, ih]
        · exact hab
        · rw [this]; exact hab
      · rw [List.filter_cons_of_neg, List.filter_cons_of_neg]
        · exact ih
        · simp [hab]
        · rw [this]; simp [hab]
    · rw [if_neg hm]
      by_cases hab : matchEdge a b e
      · rw [List.filter_cons_of_pos, List.filter_cons_of_pos]
        · simp only [List.length_cons, ih]
        · exact hab
        · exact hab
      · rw [List.filter_cons_of_neg, List.filter_cons_of_neg]
        · exact ih
        · simp [hab]
        · simp [hab]

theorem edgeUniq_setEdge {G : MetroGraph} (hG : edgeUniq G) (u v : String)
    (f : Option EdgeData → EdgeData) : edgeUniq (setEdge G u v f) := by
  intro a b
  unfold setEdge
  by_cases hs : (edgeFind G u v).isSome
  · rw [if_pos hs]
    unfold countEdgesBetween
    simp only
    rw [countEdgesBetween_setEdge_map]
    exact hG a b
  · rw [if_neg hs]
    unfold countEdgesBetween
    simp only
    rw [List.filter_append, List.length_append]
    by_cases hm : matchEdge a b (u, v, f none)
    · have hnone : G.adj.find? (matchEdge u v) = none := by
        unfold edgeFind at hs
        cases hf : G.adj.find? (matchEdge u v) with
        | none => rfl
        | some e => rw [hf] at hs; simp at hs
      have hzero : (G.adj.filter (matchEdge a b)).length = 0 := by
        rw [List.length_eq_zero]
        rw [List.filter_eq_nil_iff]
        intro e he
        have h1 := List.find?_eq_none.mp hnone e he
        rw [← matchEdge_congr hm e]
        simp only [Bool.not_eq_true]
        exact Bool.eq_false_iff.mpr h1
      rw [hzero]
      simp [hm]
    · have : ([(u, v, f none)].filter (matchEdge a b)).length = 0 := by
        simp [hm]
      rw [this]
      simpa using hG a b

theorem edgeUniq_addTransferEdges {G : MetroGraph} (hG : edgeUniq G)
    (transfers : List (String × String)) : edgeUniq (addTransferEdges G transfers) := by
  induction transfers generalizing G with
  | nil => exact hG
  | cons t ts ih =>
    unfold addTransferEdges
    simp only [List.foldl_cons]
    apply ih
    split
    · exact edgeUniq_setEdge hG t.1 t.2 _
    · exact hG

theorem edgeUniq_rideFold {G : MetroGraph} (hG : edgeUniq G) (stations : List String)
    (line : String) : edgeUniq (rideFold G stations line) := by
  unfold rideFold
  generalize stations.zip stations.tail = ps
  induction ps generalizing G with
  | nil => exact hG
  | cons p ps ih =>
    simp only [List.foldl_cons]
    apply ih
    split
    · exact edgeUniq_setEdge hG p.1 p.2 _
    · exact hG

theorem edgeUniq_processRoutes {routes : List RouteRec}
    {st : MetroGraph × List (String × LineDetail)} (hG : edgeUniq st.1) :
    edgeUniq (routes.foldl processRoute st).1 := by
  induction routes generalizing st with
  | nil => exact hG
  | cons r rs ih =>
    simp only [List.foldl_cons]
    apply ih
    unfold processRoute
    match r.stations with
    | [] => exact hG
    | s0 :: rest =>
      match lineCodeOf r.routeID with
      | none => exact hG
      | some code => exact edgeUniq_rideFold hG _ _

theorem buildNodes_adj (routes : List RouteRec) : (buildNodes routes).adj = [] := by
  unfold buildNodes
  suffices h : ∀ (rs : List RouteRec) (G : MetroGraph),
      (rs.foldl (fun G r => r.stations.foldl
        (fun G sid => if sid ≠ "" then addNode G sid else G) G) G).adj = G.adj by
    exact h routes ⟨[], []⟩
  intro rs
  induction rs with
  | nil => intro G; rfl
  | cons r rs ih =>
    intro G
    simp only [List.foldl_cons]
    rw [ih]
    generalize r.stations = sids
    induction sids generalizing G with
    | nil => rfl
    | cons sid sids ih2 =>
      simp only [List.foldl_cons]
      rw [ih2]
      split
      · unfold addNode
        split <;> rfl
      · rfl

theorem edgeUniq_build (routes : List RouteRec) (transfers : List (String × String)) :
    edgeUniq (buildMetroGraph routes transfers).1 := by
  unfold buildMetroGraph
  split
  · intro a b
    simp [countEdgesBetween]
  · simp only
    apply edgeUniq_addTransferEdges
    apply edgeUniq_processRoutes
    intro a b
    unfold countEdgesBetween
    rw [buildNodes_adj]
    simp

theorem hasTransfer5_addTransferEdge (G : MetroGraph) (u v : String) :
    hasTransfer5 (addTransferEdge G u v) u v := by
  unfold addTransferEdge setEdge
  by_cases hs : (edgeFind G u v).isSome
  · rw [if_pos hs]
    unfold edgeFind at hs
    cases hf : G.adj.find? (matchEdge u v) with
    | none => rw [hf] at hs; simp at hs
    | some e =>
      have hmem := List.mem_of_find?_eq_some hf
      have hmatch := List.find?_some hf
      refine ⟨(e.1, e.2.1, { e.2.2 with weight := 5, etype := EdgeType.transfer }), ?_, ?_, rfl, rfl⟩
      · simp only
        apply List.mem_map.mpr
        exact ⟨e, hmem, by rw [if_pos hmatch]⟩
      · rw [show matchEdge u v (e.1, e.2.1, _) = matchEdge u v e from ?_]
        · exact hmatch
        · match e with
          | (x, y, d) => exact matchEdge_data u v x y _ _
  · rw [if_neg hs]
    refine ⟨(u, v, ⟨5, EdgeType.transfer, none⟩), ?_, ?_, rfl, rfl⟩
    · simp
    · unfold matchEdge
      simp

theorem hasTransfer5_preserved_setEdge {G : MetroGraph} {a b : String}
    (hT : hasTransfer5 G a b) (u v : String) :
    hasTransfer5 (addTransferEdge G u v) a b := by
  rcases hT with ⟨e, hmem, hmatch, hw, ht⟩
  unfold addTransferEdge setEdge
  by_cases hs : (edgeFind G u v).isSome
  · rw [if_pos hs]
    by_cases hm : matchEdge u v e
    · refine ⟨(e.1, e.2.1, { e.2.2 with weight := 5, etype := EdgeType.transfer }), ?_, ?_, rfl, rfl⟩
      · simp only
        apply List.mem_map.mpr
        exact ⟨e, hmem, by rw [if_pos hm]⟩
      · rw [show matchEdge a b (e.1, e.2.1, _) = matchEdge a b e from ?_]
        · exact hmatch
        · match e with
          | (x, y, d) => exact matchEdge_data a b x y _ _
    · refine ⟨e, ?_, hmatch, hw, ht⟩
      simp only
      apply List.mem_map.mpr
      refine ⟨e, hmem, ?_⟩
      rw [if_neg ?_]
      simp [hm]
  · rw [if_neg hs]
    exact ⟨e, by simp [hmem], hmatch, hw, ht⟩

theorem hasTransfer5_addTransferEdges {G : MetroGraph} {a b : String}
    (hT : hasTransfer5 G a b) (transfers : List (String × String)) :
    hasTransfer5 (addTransferEdges G transfers) a b := by
  induction transfers generalizing G with
  | nil => exact hT
  | cons t ts ih =>
    unfold addTransferEdges
    simp only [List.foldl_cons]
    apply ih
    split
    · exact hasTransfer5_preserved_setEdge hT t.1 t.2
    · exact hT

theorem hasTransfer5_of_mem {G : MetroGraph} {u v : String}
    (transfers : List (String × String)) (hmem : (u, v) ∈ transfers)
    (hu : hasNode G u = true) (hv : hasNode G v = true) :
    hasTransfer5 (addTransferEdges G transfers) u v := by
  induction transfers generalizing G with
  | nil => simp at hmem
  | cons t ts ih =>
    unfold addTransferEdges
    simp only [List.foldl_cons]
    rcases List.mem_cons.mp hmem with heq | htail
    · rw [← heq]
      rw [if_pos (by simp [hu, hv])]
      exact hasTransfer5_addTransferEdges (hasTransfer5_addTransferEdge G u v) ts
    · split
      · apply ih htail
        · rw [hasNode, addTransferEdge_nodes]
          exact hu
        · rw [hasNode, addTransferEdge_nodes]
          exact hv
      · exact ih htail hu hv

theorem mem_le_one_eq {α : Type} {l : List α} (hlen : l.length ≤ 1) {a b : α}
    (ha : a ∈ l) (hb : b ∈ l) : a = b := by
  match l with
  | [] => simp at ha
  | [x] =>
    rw [List.mem_singleton] at ha hb
    rw [ha, hb]
  | x :: y :: t => simp at hlen

theorem edgeFind_of_hasTransfer5 {G : MetroGraph} {u v : String}
    (hU : edgeUniq G) (hT : hasTransfer5 G u v) :
    ∃ d, edgeFind G u v = some d ∧ d.weight = 5 ∧ d.etype = EdgeType.transfer := by
  rcases hT with ⟨e, hmem, hmatch, hw, ht⟩
  unfold edgeFind
  cases hf : G.adj.find? (matchEdge u v) with
  | none =>
    have := List.find?_eq_none.mp hf e hmem
    rw [hmatch] at this
    simp at this
  | some e' =>
    have hmem' := List.mem_of_find?_eq_some hf
    have hmatch' := List.find?_some hf
    have hfe : e ∈ G.adj.filter (matchEdge u v) := List.mem_filter.mpr ⟨hmem, hmatch⟩
    have hfe' : e' ∈ G.adj.filter (matchEdge u v) := List.mem_filter.mpr ⟨hmem', hmatch'⟩
    have : e' = e := mem_le_one_eq (hU u v) hfe' hfe
    rw [this]
    exact ⟨e.2.2, rfl, hw, ht⟩

/-- C4 (amended): for every pair of the transfer table whose endpoints are
nodes of the built graph, the single edge stored between them ends with
weight 5 and type `transfer` — a transfer assignment *overwrites* the
weight and type of any pre-existing ride edge between that pair rather
than keeping the minimum weight — and the graph is simple: at most one
edge of any kind (hence at most one ride edge of a given line, and never a
ride edge coexisting with a transfer edge) between any two IDs. -/
theorem transfer_edges_overwrite (routes : List RouteRec)
    (transfers : List (String × String)) (u v : String)
    (hmem : (u, v) ∈ transfers)
    (hu : hasNode (buildMetroGraph routes transfers).1 u = true)
    (hv : hasNode (buildMetroGraph routes transfers).1 v = true) :
    (∃ d, edgeFind (buildMetroGraph routes transfers).1 u v = some d ∧
        d.weight = 5 ∧ d.etype = EdgeType.transfer) ∧
      ∀ a b, countEdgesBetween (buildMetroGraph routes transfers).1 a b ≤ 1 := by
  refine ⟨?_, edgeUniq_build routes transfers⟩
  apply edgeFind_of_hasTransfer5 (edgeUniq_build routes transfers)
  unfold buildMetroGraph at hu hv ⊢
  by_cases hroutes : routes = []
  · rw [if_pos hroutes] at hu
    simp [hasNode] at hu
  · rw [if_neg hroutes] at hu hv ⊢
    simp only at hu hv ⊢
    rw [hasNode, addTransferEdges_nodes] at hu hv
    exact hasTransfer5_of_mem transfers hmem hu hv

/-- Witness for C4 (amended): one route `BL` with stations `BL01 — BL02`
and a transfer pair `(BL01, BL02)`; the stored edge ends as
weight 5 / `transfer`. -/
theorem transfer_edges_overwrite_witness :
    (∃ d, edgeFind (buildMetroGraph [⟨"BL", ["BL01", "BL02"]⟩] [("BL01", "BL02")]).1
        "BL01" "BL02" = some d ∧ d.weight = 5 ∧ d.etype = EdgeType.transfer) ∧
      ∀ a b, countEdgesBetween
          (buildMetroGraph [⟨"BL", ["BL01", "BL02"]⟩] [("BL01", "BL02")]).1 a b ≤ 1 :=
  transfer_edges_overwrite [⟨"BL", ["BL01", "BL02"]⟩] [("BL01", "BL02")] "BL01" "BL02"
    (by decide) (by decide) (by decide)

/-- C4 (counterexample): in the graph built from one `BL` route
`BL01 — BL02` (ride edge, weight 3) and the transfer pair `(BL01, BL02)`,
the resulting single edge has weight 5 — not the minimum 3 of the
pre-existing ride edge — and no separate ride edge survives next to it, so
the claimed minimum-keeping update and ride/transfer coexistence both fail. -/
theorem transfer_edge_not_min_counterexample :
    edgeFind (buildMetroGraph [⟨"BL", ["BL01", "BL02"]⟩] [("BL01", "BL02")]).1 "BL01" "BL02" =
        some ⟨5, EdgeType.transfer, some "板南線"⟩ ∧
      (5 : Nat) ≠ min 3 5 ∧
      countEdgesBetween (buildMetroGraph [⟨"BL", ["BL01", "BL02"]⟩] [("BL01", "BL02")]).1
          "BL01" "BL02" = 1 := by
  decide

theorem edgeFind_symm (G : MetroGraph) (u v : String) : edgeFind G u v = edgeFind G v u := by
  unfold edgeFind
  have h : matchEdge u v = matchEdge v u := funext (fun e => matchEdge_symm u v e)
  rw [h]

theorem edgeW_symm (G : MetroGraph) (u v : String) : edgeW G u v = edgeW G v u := by
  unfold edgeW
  rw [edgeFind_symm]

theorem pickMin_aux (l : List (List String × Nat)) :
    ∀ q, ∃ r, l.foldl
        (fun acc pd =>
          match acc with
          | none => some pd
          | some qd => if pd.2 < qd.2 then some pd else acc)
        (some q) = some r ∧ (r ∈ l ∨ r = q) ∧ r.2 ≤ q.2 ∧ ∀ x ∈ l, r.2 ≤ x.2 := by
  induction l with
  | nil =>
    intro q
    exact ⟨q, rfl, Or.inr rfl, le_refl _, by simp⟩
  | cons pd l ih =>
    intro q
    simp only [List.foldl_cons]
    by_cases hlt : pd.2 < q.2
    · rw [if_pos hlt]
      rcases ih pd with ⟨r, h1, h2, h3, h4⟩
      refine ⟨r, h1, ?_, le_trans h3 (le_of_lt hlt), ?_⟩
      · rcases h2 with h2 | h2
        · exact Or.inl (List.mem_cons_of_mem _ h2)
        · exact Or.inl (h2 ▸ List.mem_cons_self _ _)
      · intro x hx
        rcases List.mem_cons.mp hx with hx | hx
        · rw [hx]; exact h3
        · exact h4 x hx
    · rw [if_neg hlt]
      rcases ih q with ⟨r, h1, h2, h3, h4⟩
      refine ⟨r, h1, ?_, h3, ?_⟩
      · rcases h2 with h2 | h2
        · exact Or.inl (List.mem_cons_of_mem _ h2)
        · exact Or.inr h2
      · intro x hx
        rcases List.mem_cons.mp hx with hx | hx
        · rw [hx]
          exact le_trans h3 (Nat.le_of_not_lt hlt)
        · exact h4 x hx

theorem pickMin_some_spec {l : List (List String × Nat)} {r : List String × Nat}
    (h : pickMin l = some r) : r ∈ l ∧ ∀ x ∈ l, r.2 ≤ x.2 := by
  match l with
  | [] => simp [pickMin] at h
  | pd :: l =>
    unfold pickMin at h
    simp only [List.foldl_cons] at h
    rcases pickMin_aux l pd with ⟨r', h1, h2, h3, h4⟩
    rw [h1] at h
    injection h with h
    subst h
    constructor
    · rcases h2 with h2 | h2
      · exact List.mem_cons_of_mem _ h2
      · exact h2 ▸ List.mem_cons_self _ _
    · intro x hx
      rcases List.mem_cons.mp hx with hx | hx
      · rw [hx]; exact h3
      · exact h4 x hx

theorem pickMin_eq_none {l : List (List String × Nat)} (h : pickMin l = none) : l = [] := by
  match l with
  | [] => rfl
  | pd :: l =>
    unfold pickMin at h
    simp only [List.foldl_cons] at h
    rcases pickMin_aux l pd with ⟨r', h1, _, _, _⟩
    rw [h1] at h
    simp at h

theorem pickMin_isSome_of_mem {l : List (List String × Nat)} {x : List String × Nat}
    (h : x ∈ l) : ∃ r, pickMin l = some r := by
  cases hp : pickMin l with
  | none => rw [pickMin_eq_none hp] at h; simp at h
  | some r => exact ⟨r, rfl⟩

theorem spAux_sound (G : MetroGraph) :
    ∀ (fuel : Nat) (visited : List String) (u t : String) (p : List String) (c : Nat),
      u ∉ visited → (p, c) ∈ spAux G visited u t fuel →
      p.head? = some u ∧ p.getLast? = some t ∧ chainW G p = some c ∧ p.Nodup ∧
        (∀ x ∈ p, x ∉ visited) ∧ (∀ x ∈ p.tail, x ∈ G.nodes) := by
  intro fuel
  induction fuel with
  | zero =>
    intro visited u t p c _ h
    simp [spAux] at h
  | succ fuel ih =>
    intro visited u t p c hu h
    unfold spAux at h
    by_cases hut : u = t
    · rw [if_pos hut] at h
      rcases List.mem_singleton.mp h with heq
      injection heq with h1 h2
      subst h1
      subst h2
      refine ⟨rfl, by rw [hut]; rfl, rfl, List.nodup_singleton u, ?_, by simp⟩
      intro x hx
      rw [List.mem_singleton.mp hx]
      exact hu
    · rw [if_neg hut] at h
      rcases List.mem_flatMap.mp h with ⟨w, hwfilter, hmem⟩
      rcases List.mem_map.mp hmem with ⟨pc, hpcmem, heq⟩
      injection heq with h1 h2
      rcases List.mem_filter.mp hwfilter with ⟨hwnode, hwcond⟩
      rcases Bool.and_eq_true_iff.mp hwcond with ⟨hnotvis, hsome⟩
      have hwnv : w ∉ u :: visited := by simpa using hnotvis
      obtain ⟨we, hwe⟩ := Option.isSome_iff_exists.mp hsome
      obtain ⟨ih1, ih2, ih3, ih4, ih5, ih6⟩ := ih (u :: visited) w t pc.1 pc.2 hwnv hpcmem
      match hp' : pc.1, ih1 with
      | w' :: p'', ih1 =>
        injection ih1 with hw'
        subst hw'
        rw [hp'] at h1 ih2 ih3 ih4 ih5 ih6
        subst h1
        rw [hwe] at h2
        simp only [Option.getD_some] at h2
        refine ⟨rfl, ?_, ?_, ?_, ?_, ?_⟩
        · rw [List.getLast?_cons_cons]
          exact ih2
        · unfold chainW
          rw [hwe, ih3, ← h2]
        · rw [List.nodup_cons]
          refine ⟨?_, ih4⟩
          intro hcon
          exact (ih5 u hcon) (List.mem_cons_self u visited)
        · intro x hx
          rcases List.mem_cons.mp hx with hx | hx
          · rw [hx]; exact hu
          · intro hcon
            exact (ih5 x hx) (List.mem_cons_of_mem u hcon)
        · intro x hx
          rcases List.mem_cons.mp hx with hx | hx
          · rw [hx]
            exact hwnode
          · exact ih6 x hx

theorem getLast?_mem {α : Type} {l : List α} {a : α} (h : l.getLast? = some a) : a ∈ l := by
  rcases List.mem_getLast?_eq_getLast (Option.mem_def.mpr h) with ⟨hne, heq⟩
  rw [heq]
  exact List.getLast_mem hne

theorem spAux_complete (G : MetroGraph) :
    ∀ (fuel : Nat) (visited : List String) (p : List String) (u t : String) (c : Nat),
      p.head? = some u → p.getLast? = some t → chainW G p = some c → p.Nodup →
      (∀ x ∈ p, x ∉ visited) → (∀ x ∈ p.tail, x ∈ G.nodes) → p.length ≤ fuel →
      (p, c) ∈ spAux G visited u t fuel := by
  intro fuel
  induction fuel with
  | zero =>
    intro visited p u t c hhead _ _ _ _ _ hlen
    rw [List.length_eq_zero.mp (Nat.le_zero.mp hlen)] at hhead
    simp at hhead
  | succ fuel ih =>
    intro visited p u t c hhead hlast hchain hnodup hdisj htail hlen
    cases p with
    | nil => simp at hhead
    | cons u' rest =>
      rw [List.head?_cons] at hhead
      injection hhead with hu'
      subst u'
      cases rest with
      | nil =>
        have ht : u = t := by
          rw [List.getLast?_singleton] at hlast
          injection hlast
        have hc : c = 0 := by
          unfold chainW at hchain
          injection hchain with h
          exact h.symm
        unfold spAux
        rw [if_pos ht, hc]
        exact List.mem_singleton.mpr rfl
      | cons w p'' =>
        have hwmem : w ∈ u :: w :: p'' := List.mem_cons_of_mem u (List.mem_cons_self w p'')
        have hunodup := (List.nodup_cons.mp hnodup).1
        have hut : u ≠ t := by
          intro hcon
          apply hunodup
          rw [List.getLast?_cons_cons] at hlast
          rw [hcon]
          exact getLast?_mem hlast
        have hchain' := hchain
        unfold chainW at hchain'
        cases hwe : edgeW G u w with
        | none => rw [hwe] at hchain'; simp at hchain'
        | some w₁ =>
          cases hch : chainW G (w :: p'') with
          | none => rw [hwe, hch] at hchain'; simp at hchain'
          | some c₁ =>
            rw [hwe, hch] at hchain'
            injection hchain' with hcval
            unfold spAux
            rw [if_neg hut]
            apply List.mem_flatMap.mpr
            refine ⟨w, ?_, ?_⟩
            · apply List.mem_filter.mpr
              refine ⟨htail w (List.mem_cons_self w p''), ?_⟩
              apply Bool.and_eq_true_iff.mpr
              constructor
              · have hwnv : w ∉ u :: visited := by
                  intro hcon
                  rcases List.mem_cons.mp hcon with hcon | hcon
                  · exact hunodup (hcon ▸ List.mem_cons_self w p'')
                  · exact hdisj w hwmem hcon
                simpa using hwnv
              · rw [hwe]; rfl
            · apply List.mem_map.mpr
              refine ⟨(w :: p'', c₁), ?_, ?_⟩
              · apply ih (u :: visited) (w :: p'') w t c₁ rfl ?_ hch
                    (List.nodup_cons.mp hnodup).2 ?_ ?_ ?_
                · rw [List.getLast?_cons_cons] at hlast
                  exact hlast
                · intro x hx
                  intro hcon
                  rcases List.mem_cons.mp hcon with hcon | hcon
                  · exact hunodup (hcon ▸ hx)
                  · exact hdisj x (List.mem_cons_of_mem u hx) hcon
                · intro x hx
                  exact htail x (List.mem_cons_of_mem w hx)
                · have := hlen
                  simp only [List.length_cons] at this ⊢
                  omega
              · rw [hwe]
                simp only [Option.getD_some]
                rw [hcval]

theorem nodup_length_le {p m : List String} (hnd : p.Nodup) (hsub : ∀ x ∈ p, x ∈ m) :
    p.length ≤ m.length := by
  calc p.length = p.toFinset.card := (List.toFinset_card_of_nodup hnd).symm
    _ ≤ m.toFinset.card :=
        Finset.card_le_card (fun x hx => List.mem_toFinset.mpr (hsub x (List.mem_toFinset.mp hx)))
    _ ≤ m.length := List.toFinset_card_le m

theorem chainW_cons_cons (G : MetroGraph) (u v : String) (rest : List String) :
    chainW G (u :: v :: rest) =
      match edgeW G u v, chainW G (v :: rest) with
      | some w, some d => some (w + d)
      | _, _ => none := rfl

theorem chainW_concat (G : MetroGraph) :
    ∀ (q : List String) (z x : String) (d : Nat),
      chainW G q = some d → q.getLast? = some z →
      chainW G (q ++ [x]) = (edgeW G z x).map (fun w => d + w) := by
  intro q
  induction q with
  | nil =>
    intro z x d h _
    simp [chainW] at h
  | cons a q ih =>
    intro z x d h hlast
    cases q with
    | nil =>
      have hd : d = 0 := by
        unfold chainW at h
        injection h with h
        exact h.symm
      have hz : z = a := by
        rw [List.getLast?_singleton] at hlast
        injection hlast with h2
        exact h2.symm
      subst hd
      rw [hz]
      show chainW G [a, x] = (edgeW G a x).map (fun w => 0 + w)
      rw [show ([a, x] : List String) = a :: x :: [] from rfl, chainW_cons_cons]
      have h0 : chainW G [x] = some 0 := rfl
      rw [h0]
      cases he : edgeW G a x with
      | none => rfl
      | some w => simp [Nat.add_comm]
    | cons b q' =>
      have h' := h
      rw [chainW_cons_cons] at h'
      cases he : edgeW G a b with
      | none => rw [he] at h'; simp at h'
      | some w₁ =>
        cases hch : chainW G (b :: q') with
        | none => rw [he, hch] at h'; simp at h'
        | some d₁ =>
          rw [he, hch] at h'
          injection h' with hd
          rw [List.getLast?_cons_cons] at hlast
          have ih' := ih z x d₁ hch hlast
          have hcc : (b :: q') ++ [x] = b :: (q' ++ [x]) := by simp
          rw [hcc] at ih'
          rw [show (a :: b :: q') ++ [x] = a :: b :: (q' ++ [x]) by simp]
          rw [chainW_cons_cons, he, ih']
          cases hzx : edgeW G z x with
          | none => rfl
          | some w =>
            show some (w₁ + (d₁ + w)) = some (d + w)
            rw [← hd, Nat.add_assoc]

theorem chainW_append_none (G : MetroGraph) :
    ∀ (q : List String) (x : String), q ≠ [] → chainW G q = none → chainW G (q ++ [x]) = none := by
  intro q
  induction q with
  | nil => intro x h _; exact absurd rfl h
  | cons a q ih =>
    intro x _ hnone
    cases q with
    | nil => simp [chainW] at hnone
    | cons b q' =>
      rw [chainW_cons_cons] at hnone
      rw [show (a :: b :: q') ++ [x] = a :: b :: (q' ++ [x]) by simp]
      rw [chainW_cons_cons]
      cases he : edgeW G a b with
      | none => rfl
      | some w₁ =>
        rw [he] at hnone
        cases hch : chainW G (b :: q') with
        | some d₁ => rw [hch] at hnone; simp at hnone
        | none =>
          have h2 := ih x (by simp) hch
          rw [show (b :: q') ++ [x] = b :: (q' ++ [x]) by simp] at h2
          rw [h2]

theorem chainW_reverse (G : MetroGraph) : ∀ (p : List String), chainW G p.reverse = chainW G p := by
  intro p
  induction p with
  | nil => rfl
  | cons x p ih =>
    cases p with
    | nil => rfl
    | cons y p'' =>
      rw [List.reverse_cons]
      have hlast : (y :: p'').reverse.getLast? = some y := by
        rw [List.getLast?_reverse]
        rfl
      cases hch : chainW G (y :: p'') with
      | none =>
        have hrevn : chainW G ((y :: p'').reverse) = none := by rw [ih, hch]
        rw [chainW_append_none G _ x (by simp) hrevn]
        rw [chainW_cons_cons, hch]
        cases edgeW G x y <;> rfl
      | some d =>
        have hrev : chainW G ((y :: p'').reverse) = some d := by rw [ih, hch]
        rw [chainW_concat G _ y x d hrev hlast]
        rw [chainW_cons_cons, hch, edgeW_symm G y x]
        cases hxy : edgeW G x y with
        | none => rfl
        | some w => simp [Nat.add_comm]

theorem path_mem_nodes {G : MetroGraph} {p : List String} {s : String}
    (hhead : p.head? = some s) (hs : s ∈ G.nodes) (htail : ∀ x ∈ p.tail, x ∈ G.nodes) :
    ∀ x ∈ p, x ∈ G.nodes := by
  cases p with
  | nil => simp at hhead
  | cons a rest =>
    rw [List.head?_cons] at hhead
    injection hhead with ha
    subst a
    intro x hx
    rcases List.mem_cons.mp hx with hx | hx
    · rw [hx]; exact hs
    · exact htail x hx

theorem spAux_rev {G : MetroGraph} {s t : String} (hs : s ∈ G.nodes)
    {p : List String} {c : Nat} (h : (p, c) ∈ spAux G [] s t (G.nodes.length + 1)) :
    (p.reverse, c) ∈ spAux G [] t s (G.nodes.length + 1) := by
  obtain ⟨h1, h2, h3, h4, h5, h6⟩ := spAux_sound G _ [] s t p c (by simp) h
  have hmemnodes : ∀ x ∈ p, x ∈ G.nodes := path_mem_nodes h1 hs h6
  apply spAux_complete
  · rw [List.head?_reverse]; exact h2
  · rw [List.getLast?_reverse]; exact h1
  · rw [chainW_reverse]; exact h3
  · exact List.nodup_reverse.mpr h4
  · simp
  · intro x hx
    have hxp : x ∈ p := by
      rw [← List.mem_reverse]
      exact (List.tail_sublist p.reverse).mem hx
    exact hmemnodes x hxp
  · rw [List.length_reverse]
    exact Nat.le_succ_of_le (nodup_length_le h4 hmemnodes)

theorem dijkstra_symm_some {G : MetroGraph} {s t : String} (hs : s ∈ G.nodes)
    (ht : t ∈ G.nodes) {p : List String} {c : Nat} (h : dijkstra G s t = some (p, c)) :
    ∃ p', dijkstra G t s = some (p', c) := by
  obtain ⟨hmem, hmin⟩ := pickMin_some_spec h
  obtain ⟨⟨p', c'⟩, h2⟩ := pickMin_isSome_of_mem (spAux_rev hs hmem)
  obtain ⟨hmem', hmin'⟩ := pickMin_some_spec h2
  have hle1 : c' ≤ c := hmin' _ (spAux_rev hs hmem)
  have hle2 : c ≤ c' := hmin _ (spAux_rev ht hmem')
  have : c' = c := Nat.le_antisymm hle1 hle2
  subst this
  exact ⟨p', h2⟩

theorem dijkstra_symm_none {G : MetroGraph} {s t : String} (ht : t ∈ G.nodes)
    (h : dijkstra G s t = none) : dijkstra G t s = none := by
  cases h2 : dijkstra G t s with
  | none => rfl
  | some pc =>
    obtain ⟨hmem, _⟩ := pickMin_some_spec h2
    have := spAux_rev ht (p := pc.1) (c := pc.2) (by simpa using hmem)
    rw [pickMin_eq_none h] at this
    simp at this

theorem bestComboStep_guard_false {G : MetroGraph} {se : String × String}
    (h : ¬(hasNode G se.1 && hasNode G se.2) = true) (acc : Option (List String × Nat)) :
    bestComboStep G acc se = acc := by
  unfold bestComboStep
  rw [if_neg h]

theorem bestComboStep_none {G : MetroGraph} {se : String × String}
    (hg : (hasNode G se.1 && hasNode G se.2) = true) (hd : dijkstra G se.1 se.2 = none)
    (acc : Option (List String × Nat)) : bestComboStep G acc se = acc := by
  unfold bestComboStep
  rw [if_pos hg, hd]

theorem bestComboStep_some_base {G : MetroGraph} {se : String × String}
    {pw : List String × Nat} (hg : (hasNode G se.1 && hasNode G se.2) = true)
    (hd : dijkstra G se.1 se.2 = some pw) : bestComboStep G none se = some pw := by
  unfold bestComboStep
  rw [if_pos hg, hd]

theorem bestComboStep_some_acc {G : MetroGraph} {se : String × String}
    {pw : List String × Nat} (hg : (hasNode G se.1 && hasNode G se.2) = true)
    (hd : dijkstra G se.1 se.2 = some pw) (q : List String × Nat) :
    bestComboStep G (some q) se = if pw.2 < q.2 then some pw else some q := by
  unfold bestComboStep
  rw [if_pos hg, hd]

theorem bestCombo_aux (G : MetroGraph) (l : List (String × String)) :
    ∀ (q : List String × Nat),
      ∃ r, l.foldl (bestComboStep G) (some q) = some r ∧
        ((∃ se ∈ l, hasNode G se.1 = true ∧ hasNode G se.2 = true ∧
            dijkstra G se.1 se.2 = some r) ∨ r = q) ∧
        r.2 ≤ q.2 ∧
        ∀ se ∈ l, hasNode G se.1 = true → hasNode G se.2 = true →
          ∀ pw, dijkstra G se.1 se.2 = some pw → r.2 ≤ pw.2 := by
  induction l with
  | nil =>
    intro q
    exact ⟨q, rfl, Or.inr rfl, le_refl _, by simp⟩
  | cons se l ih =>
    intro q
    simp only [List.foldl_cons]
    by_cases hguard : (hasNode G se.1 && hasNode G se.2) = true
    · rcases Bool.and_eq_true_iff.mp hguard with ⟨h1, h2⟩
      cases hd : dijkstra G se.1 se.2 with
      | none =>
        rw [bestComboStep_none hguard hd]
        rcases ih q with ⟨r, ha, hb, hc, hmin⟩
        refine ⟨r, ha, ?_, hc, ?_⟩
        · rcases hb with ⟨se2, hse2, hprops⟩ | hb
          · exact Or.inl ⟨se2, List.mem_cons_of_mem _ hse2, hprops⟩
          · exact Or.inr hb
        · intro se2 hse2 g1 g2 pw hpw
          rcases List.mem_cons.mp hse2 with hse2 | hse2
          · rw [hse2, hd] at hpw
            simp at hpw
          · exact hmin se2 hse2 g1 g2 pw hpw
      | some pw =>
        rw [bestComboStep_some_acc hguard hd q]
        by_cases hlt : pw.2 < q.2
        · rw [if_pos hlt]
          rcases ih pw with ⟨r, ha, hb, hc, hmin⟩
          refine ⟨r, ha, ?_, le_trans hc (le_of_lt hlt), ?_⟩
          · rcases hb with ⟨se2, hse2, hprops⟩ | hb
            · exact Or.inl ⟨se2, List.mem_cons_of_mem _ hse2, hprops⟩
            · exact Or.inl ⟨se, List.mem_cons_self _ _, h1, h2, by rw [hd, hb]⟩
          · intro se2 hse2 g1 g2 pw2 hpw2
            rcases List.mem_cons.mp hse2 with hse2 | hse2
            · rw [hse2, hd] at hpw2
              injection hpw2 with hpw2
              rw [← hpw2]
              exact hc
            · exact hmin se2 hse2 g1 g2 pw2 hpw2
        · rw [if_neg hlt]
          rcases ih q with ⟨r, ha, hb, hc, hmin⟩
          refine ⟨r, ha, ?_, hc, ?_⟩
          · rcases hb with ⟨se2, hse2, hprops⟩ | hb
            · exact Or.inl ⟨se2, List.mem_cons_of_mem _ hse2, hprops⟩
            · exact Or.inr hb
          · intro se2 hse2 g1 g2 pw2 hpw2
            rcases List.mem_cons.mp hse2 with hse2 | hse2
            · rw [hse2, hd] at hpw2
              injection hpw2 with hpw2
              rw [← hpw2]
              exact le_trans hc (Nat.le_of_not_lt hlt)
            · exact hmin se2 hse2 g1 g2 pw2 hpw2
    · rw [bestComboStep_guard_false hguard]
      rcases ih q with ⟨r, ha, hb, hc, hmin⟩
      refine ⟨r, ha, ?_, hc, ?_⟩
      · rcases hb with ⟨se2, hse2, hprops⟩ | hb
        · exact Or.inl ⟨se2, List.mem_cons_of_mem _ hse2, hprops⟩
        · exact Or.inr hb
      · intro se2 hse2 g1 g2 pw2 hpw2
        rcases List.mem_cons.mp hse2 with hse2 | hse2
        · exfalso
          apply hguard
          rw [hse2] at g1 g2
          rw [g1, g2]
          rfl
        · exact hmin se2 hse2 g1 g2 pw2 hpw2

theorem bestCombo_fold_none (G : MetroGraph) :
    ∀ l : List (String × String), l.foldl (bestComboStep G) none = none →
      ∀ se ∈ l, hasNode G se.1 = true → hasNode G se.2 = true →
        dijkstra G se.1 se.2 = none := by
  intro l
  induction l with
  | nil => intro _ se hse; simp at hse
  | cons se l ih =>
    intro h se2 hse2 g1 g2
    simp only [List.foldl_cons] at h
    by_cases hguard : (hasNode G se.1 && hasNode G se.2) = true
    · cases hd : dijkstra G se.1 se.2 with
      | some pw =>
        rw [bestComboStep_some_base hguard hd] at h
        rcases bestCombo_aux G l pw with ⟨r, ha, _, _, _⟩
        rw [ha] at h
        simp at h
      | none =>
        rw [bestComboStep_none hguard hd] at h
        rcases List.mem_cons.mp hse2 with hse2 | hse2
        · rw [hse2]
          exact hd
        · exact ih h se2 hse2 g1 g2
    · rw [bestComboStep_guard_false hguard] at h
      rcases List.mem_cons.mp hse2 with hse2 | hse2
      · exfalso
        apply hguard
        rw [hse2] at g1 g2
        rw [g1, g2]
        rfl
      · exact ih h se2 hse2 g1 g2

theorem bestCombo_some_spec {G : MetroGraph} {ss es : List String}
    {r : List String × Nat} (h : bestCombo G ss es = some r) :
    (∃ se ∈ comboPairs ss es, hasNode G se.1 = true ∧ hasNode G se.2 = true ∧
        dijkstra G se.1 se.2 = some r) ∧
      ∀ se ∈ comboPairs ss es, hasNode G se.1 = true → hasNode G se.2 = true →
        ∀ pw, dijkstra G se.1 se.2 = some pw → r.2 ≤ pw.2 := by
  unfold bestCombo at h
  generalize hl : comboPairs ss es = l at h ⊢
  clear hl
  induction l with
  | nil => simp at h
  | cons se l ih =>
    simp only [List.foldl_cons] at h
    by_cases hguard : (hasNode G se.1 && hasNode G se.2) = true
    · rcases Bool.and_eq_true_iff.mp hguard with ⟨g1, g2⟩
      cases hd : dijkstra G se.1 se.2 with
      | none =>
        rw [bestComboStep_none hguard hd] at h
        rcases ih h with ⟨⟨se2, hse2, hprops⟩, hmin⟩
        refine ⟨⟨se2, List.mem_cons_of_mem _ hse2, hprops⟩, ?_⟩
        intro se2 hse2 k1 k2 pw hpw
        rcases List.mem_cons.mp hse2 with hse2 | hse2
        · rw [hse2, hd] at hpw
          simp at hpw
        · exact hmin se2 hse2 k1 k2 pw hpw
      | some pw =>
        rw [bestComboStep_some_base hguard hd] at h
        rcases bestCombo_aux G l pw with ⟨r2, ha, hb, hc, hmin⟩
        rw [ha] at h
        injection h with h
        subst h
        constructor
        · rcases hb with ⟨se2, hse2, hprops⟩ | hb
          · exact ⟨se2, List.mem_cons_of_mem _ hse2, hprops⟩
          · exact ⟨se, List.mem_cons_self _ _, g1, g2, by rw [hd, hb]⟩
        · intro se2 hse2 k1 k2 pw2 hpw2
          rcases List.mem_cons.mp hse2 with hse2 | hse2
          · rw [hse2, hd] at hpw2
            injection hpw2 with hpw2
            rw [← hpw2]
            exact hc
          · exact hmin se2 hse2 k1 k2 pw2 hpw2
    · rw [bestComboStep_guard_false hguard] at h
      rcases ih h with ⟨⟨se2, hse2, hprops⟩, hmin⟩
      refine ⟨⟨se2, List.mem_cons_of_mem _ hse2, hprops⟩, ?_⟩
      intro se2 hse2 k1 k2 pw hpw
      rcases List.mem_cons.mp hse2 with hse2 | hse2
      · exfalso
        apply hguard
        rw [hse2] at k1 k2
        rw [k1, k2]
        rfl
      · exact hmin se2 hse2 k1 k2 pw hpw

theorem bestCombo_isSome_of_combo {G : MetroGraph} {ss es : List String}
    {se : String × String} (hse : se ∈ comboPairs ss es)
    (g1 : hasNode G se.1 = true) (g2 : hasNode G se.2 = true)
    {pw : List String × Nat} (hd : dijkstra G se.1 se.2 = some pw) :
    ∃ r, bestCombo G ss es = some r := by
  cases hb : bestCombo G ss es with
  | some r => exact ⟨r, rfl⟩
  | none =>
    have := bestCombo_fold_none G (comboPairs ss es) hb se hse g1 g2
    rw [hd] at this
    simp at this

theorem comboPairs_mem {ss es : List String} {se : String × String} :
    se ∈ comboPairs ss es ↔ se.1 ∈ ss ∧ se.2 ∈ es := by
  unfold comboPairs
  constructor
  · intro h
    rcases List.mem_flatMap.mp h with ⟨s, hs, hmem⟩
    rcases List.mem_map.mp hmem with ⟨e, he, heq⟩
    rw [← heq]
    exact ⟨hs, he⟩
  · intro ⟨h1, h2⟩
    apply List.mem_flatMap.mpr
    refine ⟨se.1, h1, ?_⟩
    apply List.mem_map.mpr
    exact ⟨se.2, h2, rfl⟩

theorem dijkstra_path_ne_nil {G : MetroGraph} {s t : String} {pw : List String × Nat}
    (h : dijkstra G s t = some pw) : pw.1 ≠ [] := by
  obtain ⟨hmem, _⟩ := pickMin_some_spec h
  obtain ⟨h1, _⟩ := spAux_sound G _ [] s t pw.1 pw.2 (by simp) (by simpa using hmem)
  intro hcon
  rw [hcon] at h1
  simp at h1

/-- The successful branch of `find_shortest_path`, given all the guards. -/
theorem findShortestPath_ok_build {M : RoutingState} {a b : String} {ss es : List String}
    {pw : List String × Nat}
    (hready : M.graph.nodes ≠ []) (hss : getStationIds M.smap a = some ss) (hssne : ss ≠ [])
    (hes : getStationIds M.smap b = some es) (hesne : es ≠ [])
    (hbc : bestCombo M.graph ss es = some pw) (hpne : pw.1 ≠ []) :
    findShortestPath M a b = Except.ok
      { start_station := a
        end_station := b
        path_details := generateDirectionsFromIds M pw.1
        estimated_time_minutes := pw.2
        message := resultMessage a b pw.2 (generateDirectionsFromIds M pw.1) } := by
  match ss, hssne with
  | s0 :: ss', _ =>
    match es, hesne with
    | e0 :: es', _ =>
      unfold findShortestPath
      rw [if_neg hready, hss, hes]
      dsimp only
      rw [hbc]
      dsimp only
      rw [if_neg hpne]

/-- Inversion of a successful `find_shortest_path` call. -/
theorem findShortestPath_ok_inv {M : RoutingState} {a b : String} {r : RouteResult}
    (h : findShortestPath M a b = Except.ok r) :
    M.graph.nodes ≠ [] ∧
      ∃ ss es pw, getStationIds M.smap a = some ss ∧ ss ≠ [] ∧
        getStationIds M.smap b = some es ∧ es ≠ [] ∧
        bestCombo M.graph ss es = some pw ∧ pw.1 ≠ [] ∧
        r = { start_station := a
              end_station := b
              path_details := generateDirectionsFromIds M pw.1
              estimated_time_minutes := pw.2
              message := resultMessage a b pw.2 (generateDirectionsFromIds M pw.1) } := by
  unfold findShortestPath at h
  by_cases hready : M.graph.nodes = []
  · rw [if_pos hready] at h
    simp at h
  · rw [if_neg hready] at h
    refine ⟨hready, ?_⟩
    cases hss : getStationIds M.smap a with
    | none => rw [hss] at h; simp at h
    | some ss =>
      rw [hss] at h
      cases ss with
      | nil => simp at h
      | cons s0 ss' =>
        dsimp only at h
        cases hes : getStationIds M.smap b with
        | none => rw [hes] at h; simp at h
        | some es =>
          rw [hes] at h
          cases es with
          | nil => simp at h
          | cons e0 es' =>
            dsimp only at h
            cases hbc : bestCombo M.graph (s0 :: ss') (e0 :: es') with
            | none => rw [hbc] at h; simp at h
            | some pw =>
              rw [hbc] at h
              dsimp only at h
              by_cases hpne : pw.1 = []
              · rw [if_pos hpne] at h
                simp at h
              · rw [if_neg hpne] at h
                injection h with h
                exact ⟨s0 :: ss', e0 :: es', pw, rfl, by simp, rfl, by simp, hbc, hpne, h.symm⟩

/-- C1: for resolvable start/end names, `find_shortest_path` runs the
weighted search over every (startID, endID) combination whose IDs are graph
nodes and returns the path details and estimated time (the rounded total
weight) of the minimum-total-weight path over all those combinations; in
particular a single successful combination — even one using a non-first
ID — makes the call succeed. -/
theorem findShortestPath_min_over_combos (M : RoutingState) (a b : String)
    (hready : M.graph.nodes ≠ []) (ss es : List String)
    (hss : getStationIds M.smap a = some ss) (hssne : ss ≠ [])
    (hes : getStationIds M.smap b = some es) (hesne : es ≠ [])
    (s e : String) (hsmem : s ∈ ss) (hemem : e ∈ es)
    (hsn : hasNode M.graph s = true) (hen : hasNode M.graph e = true)
    (pw : List String × Nat) (hd : dijkstra M.graph s e = some pw) :
    ∃ r, findShortestPath M a b = Except.ok r ∧
      (∀ s' e' p' w', s' ∈ ss → e' ∈ es →
        hasNode M.graph s' = true → hasNode M.graph e' = true →
        dijkstra M.graph s' e' = some (p', w') → r.estimated_time_minutes ≤ w') ∧
      (∃ s' e' p', s' ∈ ss ∧ e' ∈ es ∧ hasNode M.graph s' = true ∧
        hasNode M.graph e' = true ∧
        dijkstra M.graph s' e' = some (p', r.estimated_time_minutes) ∧
        r.path_details = generateDirectionsFromIds M p') := by
  have hcombo : (s, e) ∈ comboPairs ss es := comboPairs_mem.mpr ⟨hsmem, hemem⟩
  obtain ⟨r0, hbc⟩ := bestCombo_isSome_of_combo hcombo hsn hen hd
  obtain ⟨⟨se', hse', g1, g2, hd'⟩, hmin⟩ := bestCombo_some_spec hbc
  have hpne : r0.1 ≠ [] := dijkstra_path_ne_nil hd'
  refine ⟨_, findShortestPath_ok_build hready hss hssne hes hesne hbc hpne, ?_, ?_⟩
  · intro s' e' p' w' hs' he' k1 k2 hd2
    exact hmin (s', e') (comboPairs_mem.mpr ⟨hs', he'⟩) k1 k2 (p', w') hd2
  · obtain ⟨hm1, hm2⟩ := comboPairs_mem.mp hse'
    exact ⟨se'.1, se'.2, r0.1, hm1, hm2, g1, g2, by simpa using hd', rfl⟩

/-- Witness for C1: the destination is reachable only via the second of the
two IDs the start name resolves to, and the call still succeeds. -/
theorem findShortestPath_min_over_combos_witness :
    ∃ r, findShortestPath c1State "ambi" "dest" = Except.ok r := by
  obtain ⟨r, hok, -, -⟩ :=
    findShortestPath_min_over_combos c1State "ambi" "dest" (by decide)
      ["CX", "CY"] ["D0"] (by decide) (by decide) (by decide) (by decide)
      "CY" "D0" (by decide) (by decide) (by decide) (by decide)
      (["CY", "D0"], 3) (by decide)
  exact ⟨r, hok⟩

/-- C2: the error contract of `find_shortest_path` — an unready (empty)
graph fails with `RouteNotFoundError`; with a ready graph, a start (resp.
end) name that resolves to no IDs fails with a `StationNotFoundError`
naming that side; when both resolve but no combination yields a path the
call fails with `RouteNotFoundError` naming both stations; and otherwise it
returns the complete route result built from the non-empty winning path —
never a partial or zero-length path. -/
theorem findShortestPath_error_contract (M : RoutingState) (a b : String) :
    (M.graph.nodes = [] →
      findShortestPath M a b = Except.error (RoutingError.routeNotFound notReadyMsg)) ∧
    (M.graph.nodes ≠ [] → (getStationIds M.smap a).getD [] = [] →
      findShortestPath M a b =
        Except.error (RoutingError.stationNotFound (startNotFoundMsg a))) ∧
    (M.graph.nodes ≠ [] → (getStationIds M.smap a).getD [] ≠ [] →
      (getStationIds M.smap b).getD [] = [] →
      findShortestPath M a b =
        Except.error (RoutingError.stationNotFound (endNotFoundMsg b))) ∧
    (∀ ss es, M.graph.nodes ≠ [] →
      getStationIds M.smap a = some ss → ss ≠ [] →
      getStationIds M.smap b = some es → es ≠ [] →
      ((∀ s e, s ∈ ss → e ∈ es → hasNode M.graph s = true → hasNode M.graph e = true →
          dijkstra M.graph s e = none) →
        findShortestPath M a b =
          Except.error (RoutingError.routeNotFound (noRouteMsg a b))) ∧
      (∀ pw, bestCombo M.graph ss es = some pw →
        pw.1 ≠ [] ∧
        findShortestPath M a b = Except.ok
          { start_station := a
            end_station := b
            path_details := generateDirectionsFromIds M pw.1
            estimated_time_minutes := pw.2
            message := resultMessage a b pw.2 (generateDirectionsFromIds M pw.1) })) := by
  refine ⟨?_, ?_, ?_, ?_⟩
  · intro hempty
    unfold findShortestPath
    rw [if_pos hempty]
  · intro hready hnone
    unfold findShortestPath
    rw [if_neg hready]
    cases hss : getStationIds M.smap a with
    | none => rfl
    | some ss =>
      rw [hss] at hnone
      simp only [Option.getD_some] at hnone
      rw [hnone]
  · intro hready hsome hnone
    unfold findShortestPath
    rw [if_neg hready]
    cases hss : getStationIds M.smap a with
    | none => rw [hss] at hsome; simp at hsome
    | some ss =>
      rw [hss] at hsome
      simp only [Option.getD_some] at hsome
      match ss, hsome with
      | s0 :: ss', _ =>
        dsimp only
        cases hes : getStationIds M.smap b with
        | none => rfl
        | some es =>
          rw [hes] at hnone
          simp only [Option.getD_some] at hnone
          rw [hnone]
  · intro ss es hready hss hssne hes hesne
    constructor
    · intro hnopath
      have hbc : bestCombo M.graph ss es = none := by
        cases hb : bestCombo M.graph ss es with
        | none => rfl
        | some r =>
          obtain ⟨⟨se, hse, g1, g2, hd⟩, -⟩ := bestCombo_some_spec hb
          obtain ⟨hm1, hm2⟩ := comboPairs_mem.mp hse
          rw [hnopath se.1 se.2 hm1 hm2 g1 g2] at hd
          simp at hd
      match ss, hssne with
      | s0 :: ss', _ =>
        match es, hesne with
        | e0 :: es', _ =>
          unfold findShortestPath
          rw [if_neg hready, hss]
          dsimp only
          rw [hes]
          dsimp only
          rw [hbc]
    · intro pw hbc
      obtain ⟨⟨se', hse', g1, g2, hd'⟩, _⟩ := bestCombo_some_spec hbc
      have hpne : pw.1 ≠ [] := dijkstra_path_ne_nil hd'
      exact ⟨hpne, findShortestPath_ok_build hready hss hssne hes hesne hbc hpne⟩

/-- Witness for C2: with the demo state's ready graph, an unresolvable
start name yields a `StationNotFoundError` naming the start side. -/
theorem findShortestPath_error_contract_witness :
    findShortestPath c1State "nosuch" "dest" =
      Except.error (RoutingError.stationNotFound (startNotFoundMsg "nosuch")) :=
  (findShortestPath_error_contract c1State "nosuch" "dest").2.1 (by decide) (by decide)

/-- C6: routing cost is symmetric — whenever `find_shortest_path(A, B)`
succeeds, `find_shortest_path(B, A)` succeeds with the same
`estimated_time_minutes`, because the underlying graph is undirected. -/
theorem routing_cost_symmetric (M : RoutingState) (a b : String) (r : RouteResult)
    (h : findShortestPath M a b = Except.ok r) :
    ∃ r', findShortestPath M b a = Except.ok r' ∧
      r'.estimated_time_minutes = r.estimated_time_minutes := by
  obtain ⟨hready, ss, es, pw, hss, hssne, hes, hesne, hbc, hpne, hr⟩ := findShortestPath_ok_inv h
  obtain ⟨⟨se, hse, g1, g2, hd⟩, hmin⟩ := bestCombo_some_spec hbc
  have hs_mem : se.1 ∈ M.graph.nodes := by simpa [hasNode] using g1
  have he_mem : se.2 ∈ M.graph.nodes := by simpa [hasNode] using g2
  obtain ⟨p', hd'⟩ := dijkstra_symm_some hs_mem he_mem (p := pw.1) (c := pw.2) (by simpa using hd)
  have hrevmem : (se.2, se.1) ∈ comboPairs es ss :=
    comboPairs_mem.mpr ⟨(comboPairs_mem.mp hse).2, (comboPairs_mem.mp hse).1⟩
  obtain ⟨r2, hbc2⟩ := bestCombo_isSome_of_combo hrevmem g2 g1 hd'
  obtain ⟨⟨se2, hse2, k1, k2, hd2⟩, hmin2⟩ := bestCombo_some_spec hbc2
  have hle1 : r2.2 ≤ pw.2 := hmin2 (se.2, se.1) hrevmem g2 g1 (p', pw.2) hd'
  have hs2 : se2.1 ∈ M.graph.nodes := by simpa [hasNode] using k1
  have he2 : se2.2 ∈ M.graph.nodes := by simpa [hasNode] using k2
  obtain ⟨p'', hd2'⟩ := dijkstra_symm_some hs2 he2 (p := r2.1) (c := r2.2) (by simpa using hd2)
  have hfwdmem : (se2.2, se2.1) ∈ comboPairs ss es :=
    comboPairs_mem.mpr ⟨(comboPairs_mem.mp hse2).2, (comboPairs_mem.mp hse2).1⟩
  have hle2 : pw.2 ≤ r2.2 := hmin (se2.2, se2.1) hfwdmem k2 k1 (p'', r2.2) hd2'
  have heq : r2.2 = pw.2 := Nat.le_antisymm hle1 hle2
  have hp2ne : r2.1 ≠ [] := dijkstra_path_ne_nil hd2
  refine ⟨_, findShortestPath_ok_build hready hes hesne hss hssne hbc2 hp2ne, ?_⟩
  rw [hr]
  simpa using heq

/-- Witness for C6: the reverse of the demo query costs the same 3
minutes. -/
theorem routing_cost_symmetric_witness :
    ∃ r', findShortestPath c1State "dest" "ambi" = Except.ok r' ∧
      r'.estimated_time_minutes = 3 := by
  obtain ⟨r', hok, heq⟩ := routing_cost_symmetric c1State "ambi" "dest"
    { start_station := "ambi"
      end_station := "dest"
      path_details := ["從「CY」站上車。", "搭乘【環狀線 (黃線)】，往「D0」方向。",
        "在「D0」站下車，抵達目的地。"]
      estimated_time_minutes := 3
      message := "從「ambi」到「dest」的預估時間約為 3 分鐘。詳細路線：\n從「CY」站上車。\n搭乘【環狀線 (黃線)】，往「D0」方向。\n在「D0」站下車，抵達目的地。" }
    (by rfl)
  exact ⟨r', hok, heq⟩

theorem dijkstra_self (G : MetroGraph) (x : String) : dijkstra G x x = some ([x], 0) := by
  unfold dijkstra
  have h : spAux G [] x x (G.nodes.length + 1) = [([x], 0)] := by
    simp [spAux]
  rw [h]
  rfl

theorem chainW_zero_singleton {G : MetroGraph} {p : List String}
    (hpos : ∀ u v w, edgeW G u v = some w → 0 < w)
    (h : chainW G p = some 0) : ∃ z, p = [z] := by
  match p with
  | [] => simp [chainW] at h
  | [z] => exact ⟨z, rfl⟩
  | u :: v :: rest =>
    rw [chainW_cons_cons] at h
    cases he : edgeW G u v with
    | none => rw [he] at h; simp at h
    | some w =>
      cases hch : chainW G (v :: rest) with
      | none => rw [he, hch] at h; simp at h
      | some d =>
        rw [he, hch] at h
        injection h with h
        have hw := hpos u v w he
        omega

theorem weightsOk_setEdge {G : MetroGraph} (h : weightsOk G) {u v : String}
    {f : Option EdgeData → EdgeData} (hf : ∀ od, (f od).weight = 3 ∨ (f od).weight = 5) :
    weightsOk (setEdge G u v f) := by
  intro e he
  unfold setEdge at he
  by_cases hs : (edgeFind G u v).isSome
  · rw [if_pos hs] at he
    simp only at he
    rcases List.mem_map.mp he with ⟨e0, he0, heq⟩
    by_cases hm : matchEdge u v e0
    · rw [if_pos hm] at heq
      rw [← heq]
      exact hf (some e0.2.2)
    · rw [if_neg hm] at heq
      rw [← heq]
      exact h e0 he0
  · rw [if_neg hs] at he
    simp only at he
    rcases List.mem_append.mp he with he | he
    · exact h e he
    · rw [List.mem_singleton.mp he]
      exact hf none

theorem weightsOk_rideFold {G : MetroGraph} (h : weightsOk G) (stations : List String)
    (line : String) : weightsOk (rideFold G stations line) := by
  unfold rideFold
  generalize stations.zip stations.tail = ps
  induction ps generalizing G with
  | nil => exact h
  | cons p ps ih =>
    simp only [List.foldl_cons]
    apply ih
    split
    · exact weightsOk_setEdge h (by intro od; left; rfl)
    · exact h

theorem weightsOk_addTransferEdges {G : MetroGraph} (h : weightsOk G)
    (transfers : List (String × String)) : weightsOk (addTransferEdges G transfers) := by
  induction transfers generalizing G with
  | nil => exact h
  | cons t ts ih =>
    unfold addTransferEdges
    simp only [List.foldl_cons]
    apply ih
    split
    · apply weightsOk_setEdge h
      intro od
      right
      cases od <;> rfl
    · exact h

theorem weightsOk_build (routes : List RouteRec) (transfers : List (String × String)) :
    weightsOk (buildMetroGraph routes transfers).1 := by
  unfold buildMetroGraph
  split
  · intro e he
    simp at he
  · simp only
    apply weightsOk_addTransferEdges
    suffices hpr : ∀ (rs : List RouteRec) (st : MetroGraph × List (String × LineDetail)),
        weightsOk st.1 → weightsOk (rs.foldl processRoute st).1 by
      apply hpr
      intro e he
      rw [buildNodes_adj] at he
      simp at he
    intro rs
    induction rs with
    | nil => intro st h; exact h
    | cons r rs ih =>
      intro st h
      simp only [List.foldl_cons]
      apply ih
      unfold processRoute
      match r.stations with
      | [] => exact h
      | s0 :: rest =>
        match lineCodeOf r.routeID with
        | none => exact h
        | some code => exact weightsOk_rideFold h _ _

theorem edgeW_pos_of_weightsOk {G : MetroGraph} (h : weightsOk G) :
    ∀ u v w, edgeW G u v = some w → 0 < w := by
  intro u v w hw
  unfold edgeW edgeFind at hw
  cases hf : G.adj.find? (matchEdge u v) with
  | none => rw [hf] at hw; simp at hw
  | some e =>
    rw [hf] at hw
    simp only [Option.map_some'] at hw
    injection hw with hw
    rcases h e (List.mem_of_find?_eq_some hf) with h3 | h5
    · omega
    · omega

/-- C10: when the start and end names both resolve and share a station ID
that is a graph node, `find_shortest_path` does not raise: the zero-weight
single-node path wins, and the call returns `estimated_time_minutes = 0`
with the single placeholder directive for node sequences shorter than
two. -/
theorem findShortestPath_shared_id (M : RoutingState) (a b : String)
    (hready : M.graph.nodes ≠ []) (hw : weightsOk M.graph)
    (ss es : List String)
    (hss : getStationIds M.smap a = some ss) (hes : getStationIds M.smap b = some es)
    (x : String) (hxs : x ∈ ss) (hxe : x ∈ es) (hxn : hasNode M.graph x = true) :
    ∃ r, findShortestPath M a b = Except.ok r ∧
      r.estimated_time_minutes = 0 ∧ r.path_details = [tooShortDirective] := by
  have hpos := edgeW_pos_of_weightsOk hw
  have hdself : dijkstra M.graph x x = some ([x], 0) := dijkstra_self M.graph x
  have hxcombo : (x, x) ∈ comboPairs ss es := comboPairs_mem.mpr ⟨hxs, hxe⟩
  obtain ⟨r0, hbc⟩ := bestCombo_isSome_of_combo hxcombo hxn hxn hdself
  obtain ⟨⟨se, hse, g1, g2, hd⟩, hmin⟩ := bestCombo_some_spec hbc
  have hzero : r0.2 = 0 := Nat.le_zero.mp (hmin (x, x) hxcombo hxn hxn ([x], 0) hdself)
  obtain ⟨hmem, _⟩ := pickMin_some_spec hd
  obtain ⟨h1, h2, h3, _, _, _⟩ :=
    spAux_sound M.graph _ [] se.1 se.2 r0.1 r0.2 (by simp) (by simpa using hmem)
  rw [hzero] at h3
  obtain ⟨z, hz⟩ := chainW_zero_singleton hpos h3
  have hpne : r0.1 ≠ [] := by rw [hz]; simp
  have hdirs : generateDirectionsFromIds M r0.1 = [tooShortDirective] := by rw [hz]; rfl
  have hssne : ss ≠ [] := List.ne_nil_of_mem hxs
  have hesne : es ≠ [] := List.ne_nil_of_mem hxe
  exact ⟨_, findShortestPath_ok_build hready hss hssne hes hesne hbc hpne,
    by simpa using hzero, by simpa using hdirs⟩

/-- Witness for C10 at the shared ID `CX`. -/
theorem findShortestPath_shared_id_witness :
    ∃ r, findShortestPath c10State "here" "near" = Except.ok r ∧
      r.estimated_time_minutes = 0 ∧ r.path_details = [tooShortDirective] :=
  findShortestPath_shared_id c10State "here" "near" (by decide)
    (by unfold weightsOk; decide) ["CX"] ["CX", "D0"] (by decide) (by decide)
    "CX" (by decide) (by decide) (by decide)

/-- C5 (counterexample): on the demo graph, no terminus of line `L` is
strictly closer in graph distance from the segment's last node `B1` than
from its first node `A1` (both hop distances to each terminus grow), yet
the emitted directive still carries the directional qualifier, naming
terminus 2 — the code never omits the qualifier on equal distances; it
only compares distances to terminus 1 and falls back to terminus 2. -/
theorem direction_label_counterexample :
    (hopDist c5State.graph "A1" "A1" = some 0 ∧ hopDist c5State.graph "B1" "A1" = some 1 ∧
      hopDist c5State.graph "A1" "D1" = some 1 ∧ hopDist c5State.graph "B1" "D1" = some 2) ∧
    dictLookup c5State.lineDetails "L" =
      some ⟨"未知顏色", ["A1", "B1", "C1", "D1"], ("A1", "D1")⟩ ∧
    generateDirectionsFromIds c5State ["A1", "B1"] =
      [boardDirective "A1", rideDirectiveTowards "L" "未知顏色" "D1", arriveDirective "B1"] := by
  decide

/-- C5 (amended): at a line change, when both hop-distance lookups to the
line's *first* terminus succeed, the "towards X" label names terminus 1
exactly when the segment's last node is strictly closer to it than the
first node is, and names terminus 2 in every other case (equal distances
included); the qualifier is omitted only when one of the two lookups to
terminus 1 fails. -/
theorem ride_direction_label (M : RoutingState) (dirs0 : List String) (u v : String)
    (ed : EdgeData) (hfind : edgeFind M.graph u v = some ed)
    (hride : ed.etype = EdgeType.ride) (hln : ¬ed.lineName = none)
    (li : LineDetail) (hline : lineInfoOf M ed.lineName = some li) :
    (∀ du dv, hopDist M.graph u li.terminus.1 = some du →
        hopDist M.graph v li.terminus.1 = some dv →
        directionsStep M (none, dirs0) (u, v) =
          (ed.lineName, dirs0 ++ [rideDirectiveTowards (fmtLine ed.lineName) li.color
            (nameOf M (if dv < du then li.terminus.1 else li.terminus.2))])) ∧
    (hopDist M.graph u li.terminus.1 = none ∨ hopDist M.graph v li.terminus.1 = none →
      directionsStep M (none, dirs0) (u, v) =
        (ed.lineName, dirs0 ++ [rideDirectivePlain (fmtLine ed.lineName) li.color])) := by
  constructor
  · intro du dv hdu hdv
    unfold directionsStep
    rw [hfind]
    dsimp only
    rw [hride]
    dsimp only
    rw [if_neg hln]
    rw [hline]
    dsimp only
    rw [hdu, hdv]
    simp
  · intro hnone
    unfold directionsStep
    rw [hfind]
    dsimp only
    rw [hride]
    dsimp only
    rw [if_neg hln]
    rw [hline]
    dsimp only
    rcases hnone with hnone | hnone
    · rw [hnone]
      cases hopDist M.graph v li.terminus.1 <;> simp
    · rw [hnone]
      cases hopDist M.graph u li.terminus.1 <;> simp

/-- Witness for C5 (amended): at the segment `A1 → B1` of the demo graph
the distances to terminus 1 are 0 and 1, so the label falls to
terminus 2 (`D1`). -/
theorem ride_direction_label_witness :
    directionsStep c5State (none, [boardDirective "A1"]) ("A1", "B1") =
      (some "L", [boardDirective "A1"] ++ [rideDirectiveTowards (fmtLine (some "L")) "未知顏色"
        (nameOf c5State (if 1 < 0 then "A1" else "D1"))]) :=
  (ride_direction_label c5State [boardDirective "A1"] "A1" "B1"
      ⟨3, EdgeType.ride, some "L"⟩ (by decide) rfl (by simp)
      ⟨"未知顏色", ["A1", "B1", "C1", "D1"], ("A1", "D1")⟩ (by decide)).1
    0 1 (by decide) (by decide)

/-- C3: when exact lookup misses and the fuzzy matcher's score lies
strictly between the low and high thresholds, resolution returns the
suggestion signal carrying the suggested name and the original query —
never a direct ID list and never null; and when the score is below the low
threshold (the thresholds being ordered), resolution returns null, never
an arbitrary ID list. -/
theorem resolveIds_tier_policy (index : List (String × List String))
    (matcher : String → Option (String × ℚ)) (low high : ℚ)
    (raw matched : String) (score : ℚ)
    (hmiss : dictLookup index (normalizeNameForMap raw) = none)
    (hmatch : matcher raw = some (matched, score)) :
    (low < score → score < high →
      resolveIds index matcher low high raw = ResolveOutcome.suggestion matched raw) ∧
    (score < low → low ≤ high →
      resolveIds index matcher low high raw = ResolveOutcome.notFound) := by
  constructor
  · intro h1 h2
    unfold resolveIds
    rw [hmiss, hmatch]
    dsimp only
    rw [if_neg (by exact not_le.mpr h2), if_pos (by exact h1)]
  · intro h1 h2
    unfold resolveIds
    rw [hmiss, hmatch]
    dsimp only
    rw [if_neg (by exact not_le.mpr (lt_of_lt_of_le h1 h2)), if_neg (by exact not_lt.mpr (le_of_lt h1))]

/-- Witness for C3 at concrete thresholds 0.4 / 0.7 and a mid-band score
of 0.5. -/
theorem resolveIds_tier_policy_witness :
    resolveIds [("x", ["X1"])] (fun _ => some ("sug", (1 : ℚ)/2)) ((2 : ℚ)/5) ((7 : ℚ)/10) "q" =
      ResolveOutcome.suggestion "sug" "q" :=
  (resolveIds_tier_policy [("x", ["X1"])] (fun _ => some ("sug", (1 : ℚ)/2))
      ((2 : ℚ)/5) ((7 : ℚ)/10) "q" "sug" ((1 : ℚ)/2) (by decide) rfl).1
    (by norm_num) (by norm_num)

end MetroPet
